import Mathlib

/-!
# Job queue (`src/queue.js`, `src/config.js`, `src/worker.js`)

A shallow embedding of the file-backed job queue.  Every operation of `JobQueue`
reads the whole store with `readDB`, works on it in memory and (on the paths that
reach `writeDB`) writes it back; an operation is therefore a function from the store
read to the result returned together with the store that is persisted afterwards.

Conventions of the embedding:

* timestamps are the millisecond values of the `Date` objects (`toISOString` and
  `new Date(iso)` are inverse to each other on them), as integers;
* every reading of the clock and of `Math.random` is an explicit argument;
* a store is the list `Object.values(db.jobs)`, in property order, every job being filed
  under its own `id` (the only assignment to `db.jobs` is `db.jobs[job.id] = job`);
  job ids are strings;
* `null`/`undefined` fields are `none`; `attempts`, `max_retries` and the two settings of
  the configuration are natural numbers;
* a name inherited from `Object.prototype` (such as `constructor`) resolves, under
  `db.jobs[id]`, to the prototype member when the store holds no job of that id; the
  assignments made to such a member are not part of the store and are not tracked.
-/

set_option autoImplicit false

namespace JobQueue

/-! ## Data model -/

/-- The five values written to `job.state`. -/
inductive JobState where
  | pending
  | processing
  | completed
  | failed
  | dead
  deriving DecidableEq, Repr

/-- A job record, with the nine fields built by `enqueue`. -/
structure Job where
  id : String
  command : Option String
  state : JobState
  attempts : Nat
  max_retries : Nat
  created_at : Int
  updated_at : Int
  locked_by : Option String
  locked_at : Option Int
  deriving DecidableEq, Repr

/-- The argument of `enqueue`: the parsed JSON object, any field of which may be absent. -/
structure JobData where
  id : Option String
  command : Option String
  max_retries : Option Nat
  deriving DecidableEq, Repr

/-- The two numeric settings held by `config.json`. -/
structure Config where
  max_retries : Nat
  backoff_base : Nat
  deriving DecidableEq, Repr

/-- The `defaults` object written by `Config.initConfig`. -/
def Config.defaults : Config := { max_retries := 3, backoff_base := 2 }

/-- Kinds of failure.  `TypeError` is what the runtime throws when a property of
`undefined` is read; `ValidationError` and `NotFoundError` are the kinds of the
specification's taxonomy, which no path of the source raises. -/
inductive ErrorKind where
  | TypeError
  | ValidationError
  | NotFoundError
  deriving DecidableEq, Repr

/-- A JavaScript number as returned by `markFailed`: a count, or `NaN`. -/
inductive JsNumber where
  | nat (n : Nat)
  | NaN
  deriving DecidableEq, Repr

deriving instance DecidableEq for Except

/-- The store: `Object.values(db.jobs)` in property order. -/
abbrev Store := List Job

/-! ## Property access on `db.jobs` -/

/-- Own-property lookup `db.jobs[id]`. -/
def Store.lookup (db : Store) (id : String) : Option Job :=
  db.find? (fun e => decide (e.id = id))

/-- The property names every plain object inherits from `Object.prototype`: for them
`db.jobs[id]` is not `undefined` even when the store holds no such job. -/
def objectPrototypeKeys : List String :=
  ["constructor", "hasOwnProperty", "isPrototypeOf", "propertyIsEnumerable",
   "toLocaleString", "toString", "valueOf", "__defineGetter__", "__defineSetter__",
   "__lookupGetter__", "__lookupSetter__", "__proto__"]

/-- Value of a string of decimal digits. -/
def digitsValue (cs : List Char) : Nat :=
  cs.foldl (fun n c => 10 * n + (c.toNat - 48)) 0

/-- The array index a property name denotes, if it is a canonical numeric string below
`2^32 - 1`; such names are enumerated first, in ascending numeric order. -/
def arrayIndex (s : String) : Option Nat :=
  let cs := s.data
  if cs ≠ [] ∧ cs.all Char.isDigit = true ∧ (cs = ['0'] ∨ cs.head? ≠ some '0')
      ∧ digitsValue cs < 2 ^ 32 - 1 then
    some (digitsValue cs)
  else
    none

/-- Whether a newly created property `k` is enumerated before the existing property `e`. -/
def precedes (k e : String) : Bool :=
  match arrayIndex k, arrayIndex e with
  | some n, some m => decide (n < m)
  | some _, none => true
  | none, _ => false

/-- Creation of a new own property: array indices in numeric order first, every other
name after all existing ones. -/
def Store.insertNew (job : Job) : Store → Store
  | [] => [job]
  | e :: rest =>
    if precedes job.id e.id then job :: e :: rest else e :: Store.insertNew job rest

/-- In-place mutation of the job filed under `id` (`db.jobs[id].field = ...`). -/
def Store.update (db : Store) (id : String) (f : Job → Job) : Store :=
  db.map (fun e => if e.id = id then f e else e)

/-- The assignment `db.jobs[job.id] = job`: an existing own property keeps its place and
gets the new value; the name `__proto__`, when not an own property, reaches the
inherited setter and creates nothing; any other name becomes a new own property. -/
def Store.set (db : Store) (job : Job) : Store :=
  if (db.lookup job.id).isSome then db.update job.id (fun _ => job)
  else if job.id = "__proto__" then db
  else db.insertNew job

/-- Ids are pairwise distinct: the list is the value list of an object. -/
def Store.WF (db : Store) : Prop := (db.map Job.id).Nodup

instance (db : Store) : Decidable db.WF := by
  unfold Store.WF; infer_instance

/-! ## `JobQueue.enqueue` -/

/-- The clock and random readings taken by one `enqueue` call. -/
structure EnqueueEnv where
  /-- Reading of `Date.now()` inside the generated id. -/
  now_id : Int
  /-- Value of `Math.random().toString(36).substr(2, 9)`. -/
  random : String
  /-- Reading of `new Date()` for `created_at`. -/
  now_created : Int
  /-- Reading of `new Date()` for `updated_at`. -/
  now_updated : Int
  deriving DecidableEq, Repr

/-- The template string of the generated id. -/
def generateId (env : EnqueueEnv) : String :=
  "job-" ++ toString env.now_id ++ "-" ++ env.random

/-- The expression `jobData.id || generated`: an absent or empty id is falsy. -/
def chooseId (env : EnqueueEnv) (id : Option String) : String :=
  match id with
  | some s => if s = "" then generateId env else s
  | none => generateId env

/-- The expression `jobData.max_retries || this.config.get('max-retries')`: absent or `0`
is falsy. -/
def chooseMaxRetries (cfg : Config) (m : Option Nat) : Nat :=
  match m with
  | some n => if n = 0 then cfg.max_retries else n
  | none => cfg.max_retries

/-- Method `JobQueue.enqueue(jobData)`: returns the job built and the store written. -/
def enqueue (cfg : Config) (env : EnqueueEnv) (db : Store) (jobData : JobData) :
    Job × Store :=
  let job : Job :=
    { id := chooseId env jobData.id
      command := jobData.command
      state := JobState.pending
      attempts := 0
      max_retries := chooseMaxRetries cfg jobData.max_retries
      created_at := env.now_created
      updated_at := env.now_updated
      locked_by := none
      locked_at := none }
  (job, db.set job)

/-! ## `JobQueue.getNextJob` -/

/-- The test `!job.locked_by`: `null` and the empty string are falsy. -/
def noLock (locked_by : Option String) : Bool :=
  match locked_by with
  | none => true
  | some s => decide (s = "")

/-- The time `new Date(job.locked_at).getTime()`: `new Date(null)` is the epoch. -/
def lockTime (locked_at : Option Int) : Int :=
  match locked_at with
  | none => 0
  | some t => t

/-- The filter predicate of `getNextJob`. -/
def eligible (fiveMinutesAgo : Int) (job : Job) : Bool :=
  decide (job.state = JobState.pending) &&
    (noLock job.locked_by || decide (lockTime job.locked_at < fiveMinutesAgo))

/-- The comparator of the sort in `getNextJob`: `created_at` ascending. -/
def olderOrEqual (a b : Job) : Prop := a.created_at ≤ b.created_at

instance : DecidableRel olderOrEqual := fun a b => by
  unfold olderOrEqual; infer_instance

/-- The mutation of the selected job in `getNextJob`. -/
def claim (now : Int) (workerId : String) (job : Job) : Job :=
  { job with
    state := JobState.processing
    locked_by := some workerId
    locked_at := some now
    updated_at := now }

/-- The array `jobs` of `getNextJob`: eligible jobs, stably sorted by `created_at`. -/
def eligibleJobs (now : Int) (db : Store) : List Job :=
  (db.filter (eligible (now - 5 * 60 * 1000))).insertionSort olderOrEqual

/-- Method `JobQueue.getNextJob(workerId)` at clock reading `now`: returns the claimed job or
`none` (`null`), and the store persisted. -/
def getNextJob (now : Int) (db : Store) (workerId : String) : Option Job × Store :=
  match eligibleJobs now db with
  | job :: _ =>
    let job' := claim now workerId job
    (some job', db.set job')
  | [] => (none, db)

/-! ## `JobQueue.markCompleted`, `markFailed`, `requeueFailed`, `retryFromDLQ` -/

/-- The field assignments of `markCompleted`. -/
def complete (now : Int) (job : Job) : Job :=
  { job with
    state := JobState.completed
    locked_by := none
    locked_at := none
    updated_at := now }

/-- Method `JobQueue.markCompleted(jobId)`: guarded by `if (db.jobs[jobId])`.  For an inherited
name the assignments land on the prototype member and the store is written back as read. -/
def markCompleted (now : Int) (db : Store) (jobId : String) : Store :=
  match db.lookup jobId with
  | some _ => db.update jobId (complete now)
  | none => db

/-- The field assignments of `markFailed`. -/
def fail (now : Int) (job : Job) : Job :=
  { job with
    attempts := job.attempts + 1
    state := if job.attempts + 1 ≥ job.max_retries then JobState.dead else JobState.failed
    locked_by := none
    locked_at := none
    updated_at := now }

/-- Method `JobQueue.markFailed(jobId)`: there is no guard, so `job.attempts` on an id that
resolves to `undefined` throws before anything is written; on an inherited name
`job.attempts` is `undefined`, the sum is `NaN`, and the store is written back as read. -/
def markFailed (now : Int) (db : Store) (jobId : String) :
    Except ErrorKind JsNumber × Store :=
  match db.lookup jobId with
  | some job => (Except.ok (JsNumber.nat (job.attempts + 1)), db.update jobId (fail now))
  | none =>
    if jobId ∈ objectPrototypeKeys then (Except.ok JsNumber.NaN, db)
    else (Except.error ErrorKind.TypeError, db)

/-- The field assignments of `requeueFailed`. -/
def requeue (now : Int) (job : Job) : Job :=
  { job with
    state := JobState.pending
    locked_by := none
    locked_at := none
    updated_at := now }

/-- Method `JobQueue.requeueFailed(jobId)`: acts on a `failed` job only. -/
def requeueFailed (now : Int) (db : Store) (jobId : String) : Store :=
  match db.lookup jobId with
  | some job => if job.state = JobState.failed then db.update jobId (requeue now) else db
  | none => db

/-- The field assignments of `retryFromDLQ`. -/
def retry (now : Int) (job : Job) : Job :=
  { job with
    state := JobState.pending
    attempts := 0
    locked_by := none
    locked_at := none
    updated_at := now }

/-- Method `JobQueue.retryFromDLQ(jobId)`: acts on a `dead` job only. -/
def retryFromDLQ (now : Int) (db : Store) (jobId : String) : Store :=
  match db.lookup jobId with
  | some job => if job.state = JobState.dead then db.update jobId (retry now) else db
  | none => db

/-! ## The failure path of `Worker.start` -/

/-- A pending `setTimeout(() => this.queue.requeueFailed(job.id), delay)`. -/
structure Timer where
  /-- The delay argument, in milliseconds. -/
  delay : Nat
  jobId : String
  deriving DecidableEq, Repr

/-- The `catch` block of `Worker.start` for the claimed `job`: reports the failure and
decides on the deferred requeue.  `Math.pow(backoffBase, attempts) * 1000` is the exact
product as long as it is below `2^53`; `NaN < job.max_retries` is false; an exception of
`markFailed` leaves the block. -/
def Worker.onFailure (cfg : Config) (now : Int) (db : Store) (job : Job) :
    Except ErrorKind (Option Timer) × Store :=
  match markFailed now db job.id with
  | (Except.ok (JsNumber.nat attempts), db') =>
    if attempts < job.max_retries then
      (Except.ok (some { delay := cfg.backoff_base ^ attempts * 1000, jobId := job.id }), db')
    else
      (Except.ok none, db')
  | (Except.ok JsNumber.NaN, db') => (Except.ok none, db')
  | (Except.error e, db') => (Except.error e, db')

/-! ## Auxiliary definitions: sort order, runs of rounds, worked examples -/

instance : IsTotal Job olderOrEqual := ⟨fun a b => Int.le_total a.created_at b.created_at⟩

instance : IsTrans Job olderOrEqual := ⟨fun _ _ _ h1 h2 => Int.le_trans h1 h2⟩

/-- A job left in `processing` by `worker-1`, its lease granted at `T = 1000000`. -/
def staleJob : Job :=
  { id := "job-a", command := some "sleep 600", state := JobState.processing, attempts := 0,
    max_retries := 3, created_at := 900000, updated_at := 1000000,
    locked_by := some "worker-1", locked_at := some 1000000 }

/-- A `pending` job created at time `100`. -/
def olderPending : Job :=
  { id := "job-1", command := some "echo one", state := JobState.pending, attempts := 0,
    max_retries := 3, created_at := 100, updated_at := 100, locked_by := none,
    locked_at := none }

/-- A `pending` job created at time `200`. -/
def newerPending : Job :=
  { id := "job-2", command := some "echo two", state := JobState.pending, attempts := 0,
    max_retries := 3, created_at := 200, updated_at := 200, locked_by := none,
    locked_at := none }

/-- The readings used in the worked examples. -/
def sampleEnv : EnqueueEnv :=
  { now_id := 1700000000000, random := "k3x9q2m1z", now_created := 1700000000000,
    now_updated := 1700000000001 }

/-- A job being processed by `worker-1` that has failed once already. -/
def processingJob : Job :=
  { id := "job-3", command := some "exit 1", state := JobState.processing, attempts := 1,
    max_retries := 3, created_at := 300, updated_at := 4000, locked_by := some "worker-1",
    locked_at := some 4000 }

/-- Every job of the store that carries the id `id` satisfies `P`. -/
def Store.AllAt (db : Store) (id : String) (P : Job → Prop) : Prop :=
  ∀ e ∈ db, e.id = id → P e

/-- The worker and the clock readings of one round of claim, failure report and requeue. -/
structure Round where
  worker : String
  claim_time : Int
  fail_time : Int
  requeue_time : Int
  deriving DecidableEq, Repr

/-- A round up to its failure report: `getNextJob` is called and, when the job it returns
is the one filed under `jobId`, `markFailed(jobId)` follows.  The result is the store after
the report; `none` when the call claimed another job or nothing. -/
def failRound (jobId : String) (r : Round) (db : Store) : Option Store :=
  match getNextJob r.claim_time db r.worker with
  | (some job, db1) =>
    if job.id = jobId then some (markFailed r.fail_time db1 jobId).2 else none
  | (none, _) => none

/-- The store right after the failure report of the last of the given rounds, each earlier
round being followed by `requeueFailed(jobId)`. -/
def afterFailures (jobId : String) : List Round → Store → Option Store
  | [], db => some db
  | [r], db => failRound jobId r db
  | r :: r' :: rs, db =>
    match failRound jobId r db with
    | some db2 => afterFailures jobId (r' :: rs) (requeueFailed r.requeue_time db2 jobId)
    | none => none

/-- The input of the worked retry example: two attempts allowed. -/
def retryData : JobData :=
  { id := some "job-r", command := some "exit 1", max_retries := some 2 }

/-- First round of the worked retry example. -/
def round1 : Round :=
  { worker := "worker-1", claim_time := 1700000001000, fail_time := 1700000001500,
    requeue_time := 1700000003500 }

/-- Second round of the worked retry example. -/
def round2 : Round :=
  { worker := "worker-2", claim_time := 1700000004000, fail_time := 1700000004500,
    requeue_time := 1700000008500 }

/-- The job of the worked retry example after its second failure. -/
def retryDead : Job :=
  { id := "job-r", command := some "exit 1", state := JobState.dead, attempts := 2,
    max_retries := 2, created_at := 1700000000000, updated_at := 1700000004500,
    locked_by := none, locked_at := none }

/-- A job in the dead-letter queue after three failures. -/
def deadJob : Job :=
  { id := "job-4", command := some "exit 1", state := JobState.dead, attempts := 3,
    max_retries := 3, created_at := 400, updated_at := 9000, locked_by := none,
    locked_at := none }

/-- A job whose last execution failed once, waiting for its deferred requeue. -/
def failedJob : Job :=
  { id := "job-5", command := some "exit 1", state := JobState.failed, attempts := 1,
    max_retries := 3, created_at := 500, updated_at := 9500, locked_by := none,
    locked_at := none }

/-- What one failed execution leaves behind: the attempts and the state of the job as filed
after the failure report, and the delay (in milliseconds) of the requeue timer if one was
set. -/
structure FailureRecord where
  attempts : Nat
  state : JobState
  delay : Option Nat
  deriving DecidableEq, Repr

/-- One iteration of the loop of `Worker.start` in which the job claimed is the one filed
under `jobId` and its execution fails: the claim followed by the `catch` block; `none` when
the call claimed another job or nothing. -/
def Worker.failedIteration (cfg : Config) (jobId : String) (r : Round) (db : Store) :
    Option (Except ErrorKind (Option Timer) × Store) :=
  match getNextJob r.claim_time db r.worker with
  | (some job, db1) =>
    if job.id = jobId then some (Worker.onFailure cfg r.fail_time db1 job) else none
  | (none, _) => none

/-- The callback of the timer, when one was set: `this.queue.requeueFailed(job.id)`. -/
def Timer.fire (now : Int) (db : Store) : Option Timer → Store
  | some t => requeueFailed now db t.jobId
  | none => db

/-- The records of successive failed iterations on the job filed under `jobId`, the timer
of each iteration having fired before the next claim. -/
def Worker.failureRun (cfg : Config) (jobId : String) :
    List Round → Store → Option (List FailureRecord)
  | [], _ => some []
  | r :: rs, db =>
    match Worker.failedIteration cfg jobId r db with
    | some (Except.ok timer, db2) =>
      match db2.lookup jobId,
        Worker.failureRun cfg jobId rs (Timer.fire r.requeue_time db2 timer) with
      | some job, some log =>
        some ({ attempts := job.attempts, state := job.state,
                delay := timer.map Timer.delay } :: log)
      | _, _ => none
    | _ => none

/-- The records of `n` successive failures of a job that has failed `a` times before, with
ceiling `R` and backoff base `b`. -/
def failureSchedule (b R : Nat) : Nat → Nat → List FailureRecord
  | _, 0 => []
  | a, n + 1 =>
    { attempts := a + 1
      state := if a + 1 ≥ R then JobState.dead else JobState.failed
      delay := if a + 1 < R then some (b ^ (a + 1) * 1000) else none } ::
      failureSchedule b R (a + 1) n

/-- The input of Scenario B: a command that fails, three attempts allowed. -/
def scenarioB : JobData :=
  { id := some "job-b", command := some "exit 1", max_retries := some 3 }

/-- Third round of the worked examples. -/
def round3 : Round :=
  { worker := "worker-1", claim_time := 1700000009000, fail_time := 1700000009500,
    requeue_time := 1700000017500 }

/-- A call of one operation of the job store, with the readings it takes. -/
inductive Op where
  | enqueue (cfg : Config) (env : EnqueueEnv) (jobData : JobData)
  | getNextJob (now : Int) (workerId : String)
  | markCompleted (now : Int) (jobId : String)
  | markFailed (now : Int) (jobId : String)
  | requeueFailed (now : Int) (jobId : String)
  | retryFromDLQ (now : Int) (jobId : String)
  deriving DecidableEq, Repr

/-- The store persisted by the call. -/
def Op.apply (op : Op) (db : Store) : Store :=
  match op with
  | Op.enqueue cfg env jobData => (JobQueue.enqueue cfg env db jobData).2
  | Op.getNextJob now workerId => (JobQueue.getNextJob now db workerId).2
  | Op.markCompleted now jobId => JobQueue.markCompleted now db jobId
  | Op.markFailed now jobId => (JobQueue.markFailed now db jobId).2
  | Op.requeueFailed now jobId => JobQueue.requeueFailed now db jobId
  | Op.retryFromDLQ now jobId => JobQueue.retryFromDLQ now db jobId

/-- The store persisted after a sequence of calls, starting from `db`. -/
def Store.after (db : Store) (ops : List Op) : Store :=
  ops.foldl (fun s op => op.apply s) db

/-- The store reached from the empty store (`{ jobs: {} }`, written by `initDB`) by a
sequence of calls. -/
def reach (ops : List Op) : Store := Store.after [] ops

/-- A `getNextJob` call names its worker when the worker id is not the empty string. -/
def Op.namesWorker : Op → Prop
  | Op.getNextJob _ workerId => workerId ≠ ""
  | _ => True

instance (op : Op) : Decidable op.namesWorker := by
  cases op <;> unfold Op.namesWorker <;> infer_instance

/-- A sequence of calls that leaves one job `failed` and another `dead`. -/
def sampleOps : List Op :=
  [Op.enqueue Config.defaults sampleEnv
      { id := some "job-a", command := some "exit 1", max_retries := some 2 },
   Op.enqueue Config.defaults sampleEnv
      { id := some "job-b", command := some "exit 1", max_retries := some 1 },
   Op.getNextJob 1700000001000 "worker-1",
   Op.markFailed 1700000001500 "job-a",
   Op.getNextJob 1700000002000 "worker-2",
   Op.markFailed 1700000002500 "job-b"]

/-! ## `JobQueue.getStats`, `listJobs`, `listDLQ` -/

/-- The object `result` of `getStats`: one counter per state. -/
structure Stats where
  pending : Nat
  processing : Nat
  completed : Nat
  failed : Nat
  dead : Nat
  deriving DecidableEq, Repr

/-- The step `result[job.state] = (result[job.state] || 0) + 1`. -/
def Stats.count (result : Stats) (state : JobState) : Stats :=
  match state with
  | JobState.pending => { result with pending := result.pending + 1 }
  | JobState.processing => { result with processing := result.processing + 1 }
  | JobState.completed => { result with completed := result.completed + 1 }
  | JobState.failed => { result with failed := result.failed + 1 }
  | JobState.dead => { result with dead := result.dead + 1 }

/-- The property read `result[state]`. -/
def Stats.get (result : Stats) (state : JobState) : Nat :=
  match state with
  | JobState.pending => result.pending
  | JobState.processing => result.processing
  | JobState.completed => result.completed
  | JobState.failed => result.failed
  | JobState.dead => result.dead

/-- Method `JobQueue.getStats()`: the counters start at zero and `forEach` visits the jobs
in property order. -/
def getStats (db : Store) : Stats :=
  db.foldl (fun result job => result.count job.state)
    { pending := 0, processing := 0, completed := 0, failed := 0, dead := 0 }

/-- The comparator of the sort in `listJobs`: `created_at` descending. -/
def newerOrEqual (a b : Job) : Prop := b.created_at ≤ a.created_at

instance : DecidableRel newerOrEqual := fun a b => by
  unfold newerOrEqual; infer_instance

instance : IsTotal Job newerOrEqual := ⟨fun a b => Int.le_total b.created_at a.created_at⟩

instance : IsTrans Job newerOrEqual := ⟨fun _ _ _ h1 h2 => Int.le_trans h2 h1⟩

/-- Method `JobQueue.listJobs(state = null)`: the filter applies when a state is given,
then the jobs are stably sorted, newest `created_at` first. -/
def listJobs (db : Store) (state : Option JobState) : List Job :=
  match state with
  | some s => (db.filter (fun job => decide (job.state = s))).insertionSort newerOrEqual
  | none => db.insertionSort newerOrEqual

/-- The comparator of the sort in `listDLQ`: `updated_at` descending. -/
def updatedLaterOrEqual (a b : Job) : Prop := b.updated_at ≤ a.updated_at

instance : DecidableRel updatedLaterOrEqual := fun a b => by
  unfold updatedLaterOrEqual; infer_instance

/-- Method `JobQueue.listDLQ()`: the `dead` jobs, newest `updated_at` first. -/
def listDLQ (db : Store) : List Job :=
  (db.filter (fun job => decide (job.state = JobState.dead))).insertionSort
    updatedLaterOrEqual

/-- The test `db.jobs[id] === undefined`: the store holds no job under `id` and `id` is
not a name inherited from `Object.prototype`. -/
def Store.fresh (db : Store) (id : String) : Prop :=
  db.lookup id = none ∧ id ∉ objectPrototypeKeys

instance (db : Store) (id : String) : Decidable (db.fresh id) := by
  unfold Store.fresh; infer_instance

/-- The input of the first test of `test/test.js`. -/
def testJob1 : JobData :=
  { id := some "test-job-1", command := some "echo Hello World", max_retries := none }

/-- The input of the fourth test of `test/test.js`. -/
def failJobData : JobData :=
  { id := some "fail-job", command := some "invalid-command-xyz", max_retries := some 2 }

/-! ## Eligibility as the specification words it, and several claim attempts -/

/-- The eligibility of the specification's `claim`: a job is eligible when it is `pending`,
or `processing` with a lease that has expired, the lease lasting five minutes from
`locked_at`. -/
def specEligible (now : Int) (job : Job) : Bool :=
  decide (job.state = JobState.pending) ||
    (decide (job.state = JobState.processing) &&
      match job.locked_at with
      | some t => decide (t + 5 * 60 * 1000 ≤ now)
      | none => false)

/-- A `pending` job created after `staleJob`. -/
def laterPending : Job :=
  { id := "job-b", command := some "echo b", state := JobState.pending, attempts := 0,
    max_retries := 3, created_at := 950000, updated_at := 950000, locked_by := none,
    locked_at := none }

/-- The calls that leave `staleJob` and `laterPending` in the store: two jobs are enqueued
and `worker-1` claims the older one at `T = 1000000`. -/
def leaseOps : List Op :=
  [Op.enqueue Config.defaults
      { now_id := 900000, random := "a1b2c3d4e", now_created := 900000, now_updated := 900000 }
      { id := some "job-a", command := some "sleep 600", max_retries := none },
   Op.enqueue Config.defaults
      { now_id := 950000, random := "f5g6h7i8j", now_created := 950000, now_updated := 950000 }
      { id := some "job-b", command := some "echo b", max_retries := none },
   Op.getNextJob 1000000 "worker-1"]

/-- A claim attempt: the clock reading and the worker id of one `getNextJob` call. -/
structure Attempt where
  now : Int
  workerId : String
  deriving DecidableEq, Repr

/-- Claim attempts carried out one after another: every call reads the store the call
before it wrote.  This is how the calls of the workers of one process run, `getNextJob`
being synchronous.  Returns what each call returned and the store left at the end. -/
def claimsInSequence : List Attempt → Store → List (Option Job) × Store
  | [], db => ([], db)
  | a :: rest, db =>
    ((getNextJob a.now db a.workerId).1 ::
        (claimsInSequence rest (getNextJob a.now db a.workerId).2).1,
      (claimsInSequence rest (getNextJob a.now db a.workerId).2).2)

/-- Claim attempts whose `readDB` all return the same stored snapshot, no call having
written yet when the others read: what each call returns. -/
def claimsOnSnapshot (attempts : List Attempt) (db : Store) : List (Option Job) :=
  attempts.map (fun a => (getNextJob a.now db a.workerId).1)

/-- The stores written by claim attempts that all read the same snapshot, call by call;
the file ends up holding the last of them. -/
def writesOnSnapshot (attempts : List Attempt) (db : Store) : List Store :=
  attempts.map (fun a => (getNextJob a.now db a.workerId).2)

/-! ## Lemmas on property access -/

theorem Store.lookup_nil (id : String) : Store.lookup [] id = none := rfl

theorem Store.lookup_cons (e : Job) (db : Store) (id : String) :
    Store.lookup (e :: db) id = if e.id = id then some e else Store.lookup db id := by
  unfold Store.lookup
  by_cases h : e.id = id <;> simp [List.find?, h]

theorem Store.lookup_id {db : Store} {id : String} {j : Job}
    (h : db.lookup id = some j) : j.id = id := by
  unfold Store.lookup at h
  simpa using List.find?_some h

theorem Store.lookup_mem {db : Store} {id : String} {j : Job}
    (h : db.lookup id = some j) : j ∈ db := by
  unfold Store.lookup at h
  exact List.mem_of_find?_eq_some h

theorem Store.lookup_isSome_of_mem {db : Store} {j : Job} (h : j ∈ db) :
    (db.lookup j.id).isSome = true := by
  induction db with
  | nil => cases h
  | cons e rest ih =>
    rw [Store.lookup_cons]
    by_cases he : e.id = j.id
    · simp [he]
    · simp only [he, if_false]
      rcases List.mem_cons.mp h with h1 | h1
      · exact absurd (by rw [h1]) he
      · exact ih h1

theorem Store.lookup_of_mem_of_WF {db : Store} {j : Job} (hwf : db.WF) (h : j ∈ db) :
    db.lookup j.id = some j := by
  induction db with
  | nil => cases h
  | cons e rest ih =>
    rw [Store.lookup_cons]
    unfold Store.WF at hwf
    rw [List.map_cons, List.nodup_cons] at hwf
    rcases List.mem_cons.mp h with h1 | h1
    · simp [h1]
    · have hne : e.id ≠ j.id := by
        intro he
        exact hwf.1 (he ▸ List.mem_map_of_mem Job.id h1)
      simp only [hne, if_false]
      exact ih hwf.2 h1

theorem Store.lookup_update (db : Store) (id id' : String) (f : Job → Job)
    (hf : ∀ e, e.id = id → (f e).id = id) :
    (db.update id f).lookup id' =
      if id' = id then (db.lookup id).map f else db.lookup id' := by
  induction db with
  | nil => simp [Store.update, Store.lookup]
  | cons e rest ih =>
    have ih' : Store.lookup (List.map (fun e => if e.id = id then f e else e) rest) id' =
        if id' = id then (Store.lookup rest id).map f else Store.lookup rest id' := ih
    simp only [Store.update, List.map_cons, Store.lookup_cons]
    by_cases h1 : e.id = id
    · have h4 : (f e).id = id := hf e h1
      by_cases h2 : id' = id
      · subst h2
        simp [h1, h4]
      · have h3 : ¬ id = id' := fun h => h2 h.symm
        simp [h1, h2, h4, h3, ih']
    · by_cases h2 : id' = id
      · subst h2
        simp [h1, ih']
      · simp [h1, h2, ih']

theorem Store.map_id_update (db : Store) (id : String) (f : Job → Job)
    (hf : ∀ e, e.id = id → (f e).id = e.id) :
    (db.update id f).map Job.id = db.map Job.id := by
  unfold Store.update
  rw [List.map_map]
  apply List.map_congr_left
  intro e _
  by_cases h : e.id = id
  · simp [h, hf e h]
  · simp [h]

/-! ## Properties of the operations -/

theorem eligibleJobs_head {now : Int} {db : Store} {job : Job} {rest : List Job}
    (h : eligibleJobs now db = job :: rest) :
    job ∈ db ∧ eligible (now - 5 * 60 * 1000) job = true ∧
      ∀ k ∈ db, eligible (now - 5 * 60 * 1000) k = true → job.created_at ≤ k.created_at := by
  have hperm := List.perm_insertionSort olderOrEqual (db.filter (eligible (now - 5 * 60 * 1000)))
  have hsorted := List.sorted_insertionSort olderOrEqual
    (db.filter (eligible (now - 5 * 60 * 1000)))
  unfold eligibleJobs at h
  rw [h] at hperm hsorted
  have hmem : job ∈ db.filter (eligible (now - 5 * 60 * 1000)) :=
    hperm.subset (List.mem_cons_self job rest)
  rw [List.mem_filter] at hmem
  refine ⟨hmem.1, hmem.2, ?_⟩
  intro k hk hek
  have hk' : k ∈ job :: rest := hperm.symm.subset (List.mem_filter.mpr ⟨hk, hek⟩)
  rcases List.mem_cons.mp hk' with h1 | h1
  · rw [h1]
  · exact List.rel_of_sorted_cons hsorted k h1

theorem eligibleJobs_nil {now : Int} {db : Store} (h : eligibleJobs now db = []) :
    ∀ k ∈ db, eligible (now - 5 * 60 * 1000) k = false := by
  have hperm := List.perm_insertionSort olderOrEqual (db.filter (eligible (now - 5 * 60 * 1000)))
  unfold eligibleJobs at h
  rw [h] at hperm
  have hnil := List.Perm.eq_nil (hperm.symm)
  intro k hk
  by_contra hc
  have : k ∈ db.filter (eligible (now - 5 * 60 * 1000)) :=
    List.mem_filter.mpr ⟨hk, by simpa using hc⟩
  rw [hnil] at this
  cases this

theorem Store.set_of_mem {db : Store} {j j' : Job} (h : j ∈ db) (hid : j'.id = j.id) :
    db.set j' = db.update j.id (fun _ => j') := by
  unfold Store.set
  rw [hid, Store.lookup_isSome_of_mem h]
  simp

/-- C1 (lease reclaim), the code at the failing input: the only job of the store is
`processing` with its lease granted at `T`; six minutes later the lease is older than five
minutes, yet `getNextJob` returns `null` and leaves the store as it was, because the
filter admits `pending` jobs only. -/
theorem getNextJob_expired_lease_not_reclaimed :
    lockTime staleJob.locked_at + 5 * 60 * 1000 ≤ 1000000 + 6 * 60 * 1000 ∧
      getNextJob (1000000 + 6 * 60 * 1000) [staleJob] "worker-2" = (none, [staleJob]) := by
  decide

/-- Order among the jobs the filter of `getNextJob` admits: the job returned is the claimed
copy of a job of the store that passed the filter, and its `created_at` is at most that of
every job of the store that passed the filter.  The filter admits `pending` jobs only, so
this says nothing of a `processing` job whose lease has expired. -/
theorem getNextJob_oldest_eligible (now : Int) (db : Store) (workerId : String) (j : Job)
    (h : (getNextJob now db workerId).1 = some j) :
    ∃ j0 ∈ db, j0.id = j.id ∧ j0.created_at = j.created_at ∧
      eligible (now - 5 * 60 * 1000) j0 = true ∧
      ∀ k ∈ db, eligible (now - 5 * 60 * 1000) k = true → j.created_at ≤ k.created_at := by
  unfold getNextJob at h
  cases hjobs : eligibleJobs now db with
  | nil => rw [hjobs] at h; cases h
  | cons job rest =>
    rw [hjobs] at h
    have hj : claim now workerId job = j := by simpa using h
    obtain ⟨hmem, helig, hmin⟩ := eligibleJobs_head hjobs
    subst hj
    exact ⟨job, hmem, rfl, rfl, helig, hmin⟩

theorem getNextJob_oldest_eligible_witness :
    (getNextJob 5000 [newerPending, olderPending] "worker-1").1
        = some (claim 5000 "worker-1" olderPending) ∧
      ∃ j0 ∈ [newerPending, olderPending], j0.id = (claim 5000 "worker-1" olderPending).id ∧
        j0.created_at = (claim 5000 "worker-1" olderPending).created_at ∧
        eligible (5000 - 5 * 60 * 1000) j0 = true ∧
        ∀ k ∈ [newerPending, olderPending], eligible (5000 - 5 * 60 * 1000) k = true →
          (claim 5000 "worker-1" olderPending).created_at ≤ k.created_at :=
  ⟨by decide, getNextJob_oldest_eligible 5000 [newerPending, olderPending] "worker-1"
    (claim 5000 "worker-1" olderPending) (by decide)⟩

/-- C4 (claim transition and frame): when `getNextJob` returns `j`, the job filed under
`j.id` before the call was `pending`, `j` differs from it exactly in `state = processing`,
`locked_by = workerId`, `locked_at = now`, `updated_at = now`, the resulting store files
`j` under its id, holds the same ids in the same order and every other id maps to what it
mapped to before; when `getNextJob` returns `null` the store is unchanged. -/
theorem getNextJob_transition_frame (now : Int) (db : Store) (workerId : String)
    (hwf : db.WF) :
    (∀ j, (getNextJob now db workerId).1 = some j →
      ∃ j0, db.lookup j.id = some j0 ∧ j0.state = JobState.pending ∧
        j.state = JobState.processing ∧ j.locked_by = some workerId ∧
        j.locked_at = some now ∧ j.updated_at = now ∧
        j.id = j0.id ∧ j.command = j0.command ∧ j.attempts = j0.attempts ∧
        j.max_retries = j0.max_retries ∧ j.created_at = j0.created_at ∧
        (getNextJob now db workerId).2.lookup j.id = some j ∧
        (getNextJob now db workerId).2.map Job.id = db.map Job.id ∧
        ∀ id, id ≠ j.id →
          (getNextJob now db workerId).2.lookup id = db.lookup id) ∧
    ((getNextJob now db workerId).1 = none → (getNextJob now db workerId).2 = db) := by
  unfold getNextJob
  cases hjobs : eligibleJobs now db with
  | nil => simp
  | cons job rest =>
    obtain ⟨hmem, helig, _⟩ := eligibleJobs_head hjobs
    have hlook : db.lookup job.id = some job := Store.lookup_of_mem_of_WF hwf hmem
    have hset : db.set (claim now workerId job) =
        db.update job.id (fun _ => claim now workerId job) := Store.set_of_mem hmem rfl
    have hpend : job.state = JobState.pending := by
      unfold eligible at helig
      simp only [Bool.and_eq_true, decide_eq_true_eq] at helig
      exact helig.1
    refine ⟨?_, by simp⟩
    intro j hj
    have hj' : claim now workerId job = j := by simpa using hj
    subst hj'
    refine ⟨job, hlook, hpend, rfl, rfl, rfl, rfl, rfl, rfl, rfl, rfl, rfl, ?_, ?_, ?_⟩
    · show (db.set (claim now workerId job)).lookup job.id = _
      rw [hset, Store.lookup_update db job.id job.id (fun _ => claim now workerId job)
        (fun _ _ => rfl), hlook]
      simp
    · show (db.set (claim now workerId job)).map Job.id = _
      rw [hset]
      exact Store.map_id_update _ _ _ (fun e he => he.symm ▸ rfl)
    · intro id hid
      show (db.set (claim now workerId job)).lookup id = _
      rw [hset, Store.lookup_update db job.id id (fun _ => claim now workerId job)
        (fun _ _ => rfl)]
      have : ¬ id = job.id := hid
      simp [this]

theorem getNextJob_transition_frame_witness :
    Store.WF [newerPending, olderPending] ∧
      (getNextJob 5000 [newerPending, olderPending] "worker-1").1
        = some (claim 5000 "worker-1" olderPending) ∧
      (getNextJob 5000 [newerPending, olderPending] "worker-1").2.lookup "job-2"
        = Store.lookup [newerPending, olderPending] "job-2" :=
  ⟨by decide, by decide, by
    obtain ⟨_, _, _, _, _, _, _, _, _, _, _, _, _, _, hframe⟩ :=
      (getNextJob_transition_frame 5000 [newerPending, olderPending] "worker-1"
        (by decide)).1 (claim 5000 "worker-1" olderPending) (by decide)
    exact hframe "job-2" (by decide)⟩

theorem Store.lookup_insertNew (job : Job) (db : Store) (id : String)
    (hnew : db.lookup job.id = none) :
    (Store.insertNew job db).lookup id = if id = job.id then some job else db.lookup id := by
  induction db with
  | nil =>
    simp only [Store.insertNew, Store.lookup_cons, Store.lookup_nil]
    by_cases h : id = job.id
    · simp [h]
    · have h' : ¬ job.id = id := fun h1 => h h1.symm
      simp [h, h']
  | cons e rest ih =>
    rw [Store.lookup_cons] at hnew
    have hne : ¬ e.id = job.id := by
      intro h
      simp [h] at hnew
    simp only [hne, if_false] at hnew
    unfold Store.insertNew
    by_cases hp : precedes job.id e.id = true
    · simp only [hp, if_true, Store.lookup_cons]
      by_cases h : id = job.id
      · simp [h]
      · have h' : ¬ job.id = id := fun h1 => h h1.symm
        simp [h, h']
    · have hp' : precedes job.id e.id = false := by simpa using hp
      simp only [hp', Bool.false_eq_true, if_false]
      rw [Store.lookup_cons, Store.lookup_cons, ih hnew]
      by_cases h : id = job.id
      · subst h
        simp [hne]
      · simp [h]

theorem Store.lookup_set (db : Store) (job : Job) (id : String)
    (hproto : job.id ≠ "__proto__") :
    (db.set job).lookup id = if id = job.id then some job else db.lookup id := by
  unfold Store.set
  cases hl : db.lookup job.id with
  | some old =>
    simp only [Option.isSome_some, if_true]
    rw [Store.lookup_update db job.id id (fun _ => job) (fun _ _ => rfl), hl]
    simp
  | none =>
    simp only [Option.isSome_none, Bool.false_eq_true, if_false, hproto]
    exact Store.lookup_insertNew job db id hl

theorem generateId_ne_proto (env : EnqueueEnv) : generateId env ≠ "__proto__" := by
  intro h
  have hd := congrArg String.data h
  unfold generateId at hd
  simp only [String.data_append] at hd
  simp at hd

/-- C5 (enqueue postcondition, Scenario A): with the default configuration, enqueueing an
input that carries a command and neither id nor max_retries returns a `pending` job with
`attempts = 0`, `max_retries = 3`, no lease and the given command, and the resulting store
files exactly that job under the returned id. -/
theorem enqueue_default_postcondition (env : EnqueueEnv) (db : Store) (cmd : String) :
    (enqueue Config.defaults env db
        { id := none, command := some cmd, max_retries := none }).1.state
        = JobState.pending ∧
      (enqueue Config.defaults env db
        { id := none, command := some cmd, max_retries := none }).1.attempts = 0 ∧
      (enqueue Config.defaults env db
        { id := none, command := some cmd, max_retries := none }).1.max_retries = 3 ∧
      (enqueue Config.defaults env db
        { id := none, command := some cmd, max_retries := none }).1.locked_by = none ∧
      (enqueue Config.defaults env db
        { id := none, command := some cmd, max_retries := none }).1.locked_at = none ∧
      (enqueue Config.defaults env db
        { id := none, command := some cmd, max_retries := none }).1.command = some cmd ∧
      (enqueue Config.defaults env db
        { id := none, command := some cmd, max_retries := none }).2.lookup
          (enqueue Config.defaults env db
            { id := none, command := some cmd, max_retries := none }).1.id
        = some (enqueue Config.defaults env db
            { id := none, command := some cmd, max_retries := none }).1 := by
  refine ⟨rfl, rfl, rfl, rfl, rfl, rfl, ?_⟩
  unfold enqueue
  simp only
  rw [Store.lookup_set _ _ _ (by simpa [chooseId] using generateId_ne_proto env)]
  simp

/-- C6 as stated fails: enqueueing `{id: "job-x"}`, which has no command, into the empty
store returns a job (whose command is absent) and the store written holds that job. -/
theorem enqueue_missing_command_accepted :
    (enqueue Config.defaults sampleEnv []
        { id := some "job-x", command := none, max_retries := none }).1.command = none ∧
      (enqueue Config.defaults sampleEnv []
        { id := some "job-x", command := none, max_retries := none }).2 ≠ [] ∧
      (enqueue Config.defaults sampleEnv []
        { id := some "job-x", command := none, max_retries := none }).2.lookup "job-x"
        = some (enqueue Config.defaults sampleEnv []
            { id := some "job-x", command := none, max_retries := none }).1 := by
  decide

/-- C6 (amended): `enqueue` performs no validation.  For an input without a command whose
id is not `__proto__` it returns a `pending` job with `attempts = 0` and no command, and
the resulting store files that job under its id. -/
theorem enqueue_missing_command_adds_job (cfg : Config) (env : EnqueueEnv) (db : Store)
    (jobData : JobData) (hcmd : jobData.command = none)
    (hid : jobData.id ≠ some "__proto__") :
    (enqueue cfg env db jobData).1.command = none ∧
      (enqueue cfg env db jobData).1.state = JobState.pending ∧
      (enqueue cfg env db jobData).1.attempts = 0 ∧
      (enqueue cfg env db jobData).2.lookup (enqueue cfg env db jobData).1.id
        = some (enqueue cfg env db jobData).1 := by
  refine ⟨hcmd, rfl, rfl, ?_⟩
  have hne : chooseId env jobData.id ≠ "__proto__" := by
    unfold chooseId
    cases hi : jobData.id with
    | none => exact generateId_ne_proto env
    | some s =>
      by_cases hs : s = ""
      · simp only [hs, if_true]
        exact generateId_ne_proto env
      · simp only [hs, if_false]
        intro h
        exact hid (by rw [hi, h])
  unfold enqueue
  simp only
  rw [Store.lookup_set _ _ _ hne]
  simp

theorem enqueue_missing_command_adds_job_witness :
    (enqueue Config.defaults sampleEnv [olderPending]
        { id := none, command := none, max_retries := some 5 }).1.command = none ∧
      (enqueue Config.defaults sampleEnv [olderPending]
        { id := none, command := none, max_retries := some 5 }).1.state
        = JobState.pending ∧
      (enqueue Config.defaults sampleEnv [olderPending]
        { id := none, command := none, max_retries := some 5 }).1.attempts = 0 ∧
      (enqueue Config.defaults sampleEnv [olderPending]
        { id := none, command := none, max_retries := some 5 }).2.lookup
          (enqueue Config.defaults sampleEnv [olderPending]
            { id := none, command := none, max_retries := some 5 }).1.id
        = some (enqueue Config.defaults sampleEnv [olderPending]
            { id := none, command := none, max_retries := some 5 }).1 :=
  enqueue_missing_command_adds_job Config.defaults sampleEnv [olderPending]
    { id := none, command := none, max_retries := some 5 } rfl (by decide)

theorem markFailed_of_lookup {now : Int} {db : Store} {jobId : String} {job : Job}
    (h : db.lookup jobId = some job) :
    markFailed now db jobId
      = (Except.ok (JsNumber.nat (job.attempts + 1)), db.update jobId (fail now)) := by
  unfold markFailed
  rw [h]

/-- C7 (fail transition): for a job filed under `jobId` with `attempts = a` and
`max_retries = m`, `markFailed(jobId)` returns `a + 1`; afterwards the job has
`attempts = a + 1`, state `dead` when `a + 1 >= m` and `failed` otherwise, no lease, the
same id, command, max_retries and created_at; the store holds the same ids in the same
order and every other id maps to what it mapped to before. -/
theorem markFailed_transition (now : Int) (db : Store) (jobId : String) (job : Job)
    (h : db.lookup jobId = some job) :
    (markFailed now db jobId).1 = Except.ok (JsNumber.nat (job.attempts + 1)) ∧
      (∃ job', (markFailed now db jobId).2.lookup jobId = some job' ∧
        job'.attempts = job.attempts + 1 ∧
        job'.state = (if job.attempts + 1 ≥ job.max_retries then JobState.dead
          else JobState.failed) ∧
        job'.locked_by = none ∧ job'.locked_at = none ∧
        job'.id = job.id ∧ job'.command = job.command ∧
        job'.max_retries = job.max_retries ∧ job'.created_at = job.created_at) ∧
      (markFailed now db jobId).2.map Job.id = db.map Job.id ∧
      ∀ id, id ≠ jobId → (markFailed now db jobId).2.lookup id = db.lookup id := by
  rw [markFailed_of_lookup h]
  refine ⟨rfl, ⟨fail now job, ?_, rfl, rfl, rfl, rfl, rfl, rfl, rfl, rfl⟩, ?_, ?_⟩
  · show (db.update jobId (fail now)).lookup jobId = _
    rw [Store.lookup_update db jobId jobId (fail now) (fun _ he => he), h]
    simp
  · exact Store.map_id_update db jobId (fail now) (fun _ _ => rfl)
  · intro id hid
    show (db.update jobId (fail now)).lookup id = _
    rw [Store.lookup_update db jobId id (fail now) (fun _ he => he)]
    simp [hid]

theorem markFailed_transition_witness :
    Store.lookup [olderPending, processingJob] "job-3" = some processingJob ∧
      (markFailed 6000 [olderPending, processingJob] "job-3").1
        = Except.ok (JsNumber.nat 2) ∧
      (markFailed 6000 [olderPending, processingJob] "job-3").2
        = [olderPending, fail 6000 processingJob] ∧
      (fail 6000 processingJob).state = JobState.failed ∧
      (markFailed 6000 [olderPending, processingJob] "job-3").2.map Job.id
        = ["job-1", "job-3"] :=
  ⟨by decide,
    (markFailed_transition 6000 [olderPending, processingJob] "job-3" processingJob
      (by decide)).1,
    by decide, by decide,
    (markFailed_transition 6000 [olderPending, processingJob] "job-3" processingJob
      (by decide)).2.2.1⟩

/-- C8 as stated fails: `markFailed("job-1")` on a job that is `pending` and was never
leased does not fail; it returns `1` and rewrites the job as `failed`.  On an id the store
does not hold, the failure is the runtime's `TypeError`, not `NotFoundError`. -/
theorem markFailed_unleased_job_accepted :
    olderPending.state = JobState.pending ∧ olderPending.locked_by = none ∧
      markFailed 6000 [olderPending] "job-1"
        = (Except.ok (JsNumber.nat 1), [fail 6000 olderPending]) ∧
      (fail 6000 olderPending).state = JobState.failed ∧
      (markFailed 6000 [olderPending] "job-1").2 ≠ [olderPending] ∧
      (markFailed 6000 [olderPending] "no-such-job").1
        ≠ Except.error ErrorKind.NotFoundError := by
  decide

/-- C8 (amended): `markFailed(jobId)` fails, leaving the store unchanged, when the store
holds no job under `jobId` and `jobId` is not a property name inherited from
`Object.prototype`; it takes no caller identity and checks neither state nor lease, so for
every job the store holds, whatever its state and lock, it succeeds with the new attempts
count. -/
theorem markFailed_rejection (now : Int) (db : Store) (jobId : String) :
    (db.lookup jobId = none → jobId ∉ objectPrototypeKeys →
      markFailed now db jobId = (Except.error ErrorKind.TypeError, db)) ∧
    (∀ job, db.lookup jobId = some job →
      (markFailed now db jobId).1 = Except.ok (JsNumber.nat (job.attempts + 1))) := by
  constructor
  · intro hnone hkey
    unfold markFailed
    rw [hnone]
    simp [hkey]
  · intro job hjob
    rw [markFailed_of_lookup hjob]

theorem markFailed_rejection_witness :
    Store.lookup [olderPending] "no-such-job" = none ∧
      "no-such-job" ∉ objectPrototypeKeys ∧
      markFailed 6000 [olderPending] "no-such-job"
        = (Except.error ErrorKind.TypeError, [olderPending]) ∧
      (markFailed 6000 [olderPending] "job-1").1 = Except.ok (JsNumber.nat 1) :=
  ⟨by decide, by decide,
    (markFailed_rejection 6000 [olderPending] "no-such-job").1 (by decide) (by decide),
    (markFailed_rejection 6000 [olderPending] "job-1").2 olderPending (by decide)⟩

theorem Store.AllAt.update {db : Store} {id : String} {P Q : Job → Prop} {f : Job → Job}
    (h : db.AllAt id P) (hf : ∀ e, e.id = id → P e → Q (f e)) :
    (db.update id f).AllAt id Q := by
  intro e' he' hid'
  unfold Store.update at he'
  obtain ⟨e, he, rfl⟩ := List.mem_map.mp he'
  by_cases h1 : e.id = id
  · rw [if_pos h1]
    exact hf e h1 (h e he h1)
  · rw [if_neg h1] at hid'
    exact absurd hid' h1

theorem Store.AllAt.of_lookup {db : Store} {id : String} {P : Job → Prop} {j : Job}
    (h : db.AllAt id P) (hl : db.lookup id = some j) : P j :=
  h j (Store.lookup_mem hl) (Store.lookup_id hl)

theorem failRound_spec {id : String} {r : Round} {db db2 : Store} {a R : Nat}
    (hinv : db.AllAt id (fun e => e.attempts = a ∧ e.max_retries = R))
    (hrun : failRound id r db = some db2) :
    db2.AllAt id (fun e => e.attempts = a + 1 ∧ e.max_retries = R ∧
        e.state = if a + 1 ≥ R then JobState.dead else JobState.failed) ∧
      ∃ j, db2.lookup id = some j := by
  unfold failRound getNextJob at hrun
  cases hjobs : eligibleJobs r.claim_time db with
  | nil => rw [hjobs] at hrun; cases hrun
  | cons job rest =>
    rw [hjobs] at hrun
    simp only at hrun
    obtain ⟨hmem, -, -⟩ := eligibleJobs_head hjobs
    by_cases hid : (claim r.claim_time r.worker job).id = id
    · rw [if_pos hid] at hrun
      have hid' : job.id = id := hid
      have hset : db.set (claim r.claim_time r.worker job) =
          db.update job.id (fun _ => claim r.claim_time r.worker job) :=
        Store.set_of_mem hmem rfl
      rw [hset, hid'] at hrun
      have hj := hinv job hmem hid'
      have hinv1 : (db.update id (fun _ => claim r.claim_time r.worker job)).AllAt id
          (fun e => e.attempts = a ∧ e.max_retries = R) :=
        hinv.update (fun _ _ _ => hj)
      have hl0 : (db.lookup id).isSome = true := hid' ▸ Store.lookup_isSome_of_mem hmem
      obtain ⟨j0, hj0⟩ := Option.isSome_iff_exists.mp hl0
      have hl1 : (db.update id (fun _ => claim r.claim_time r.worker job)).lookup id
          = some (claim r.claim_time r.worker job) := by
        rw [Store.lookup_update db id id _ (fun _ _ => hid), hj0]
        simp
      rw [markFailed_of_lookup hl1] at hrun
      have hdb2 : (db.update id (fun _ => claim r.claim_time r.worker job)).update id
          (fail r.fail_time) = db2 := by simpa using hrun
      subst hdb2
      refine ⟨hinv1.update ?_, ?_⟩
      · intro e _ he
        refine ⟨by simp [fail, he.1], by simp [fail, he.2], ?_⟩
        simp [fail, he.1, he.2]
      · rw [Store.lookup_update _ id id (fail r.fail_time) (fun _ he => he), hl1]
        exact ⟨fail r.fail_time (claim r.claim_time r.worker job), by simp⟩
    · rw [if_neg hid] at hrun
      cases hrun

theorem requeueFailed_spec {id : String} {t : Int} {db : Store} {a R : Nat}
    (hinv : db.AllAt id (fun e => e.attempts = a ∧ e.max_retries = R ∧
        e.state = if a ≥ R then JobState.dead else JobState.failed)) :
    (requeueFailed t db id).AllAt id (fun e => e.attempts = a ∧ e.max_retries = R) := by
  unfold requeueFailed
  cases hl : db.lookup id with
  | none => exact fun e he hid => ⟨(hinv e he hid).1, (hinv e he hid).2.1⟩
  | some job =>
    simp only
    by_cases hs : job.state = JobState.failed
    · rw [if_pos hs]
      exact hinv.update (fun e _ he => ⟨he.1, he.2.1⟩)
    · rw [if_neg hs]
      exact fun e he hid => ⟨(hinv e he hid).1, (hinv e he hid).2.1⟩

theorem afterFailures_spec (id : String) (R : Nat) :
    ∀ (rounds : List Round) (db db' : Store) (a : Nat),
      db.AllAt id (fun e => e.attempts = a ∧ e.max_retries = R) →
      rounds ≠ [] →
      afterFailures id rounds db = some db' →
      ∃ j, db'.lookup id = some j ∧ j.attempts = a + rounds.length ∧
        j.state = if a + rounds.length ≥ R then JobState.dead else JobState.failed := by
  intro rounds
  induction rounds with
  | nil => intro _ _ _ _ hne; exact absurd rfl hne
  | cons r rs ih =>
    intro db db' a hinv _ hrun
    cases rs with
    | nil =>
      simp only [afterFailures] at hrun
      obtain ⟨hall, j, hj⟩ := failRound_spec hinv hrun
      have hP := hall.of_lookup hj
      exact ⟨j, hj, by simpa using hP.1, by simpa using hP.2.2⟩
    | cons r' rs' =>
      simp only [afterFailures] at hrun
      cases hfr : failRound id r db with
      | none => rw [hfr] at hrun; cases hrun
      | some db2 =>
        rw [hfr] at hrun
        simp only at hrun
        obtain ⟨hall, -⟩ := failRound_spec hinv hfr
        have hinv2 := requeueFailed_spec (t := r.requeue_time) hall
        obtain ⟨j, hj, hatt, hst⟩ := ih _ db' (a + 1) hinv2 (by simp) hrun
        refine ⟨j, hj, ?_, ?_⟩
        · rw [hatt]; simp only [List.length_cons]; omega
        · rw [hst]
          have : a + 1 + (r' :: rs').length = a + (r :: r' :: rs').length := by
            simp only [List.length_cons]; omega
          rw [this]

theorem Store.mem_insertNew {job e : Job} {db : Store} (h : e ∈ Store.insertNew job db) :
    e = job ∨ e ∈ db := by
  induction db with
  | nil =>
    simp only [Store.insertNew, List.mem_singleton] at h
    exact Or.inl h
  | cons x rest ih =>
    unfold Store.insertNew at h
    by_cases hp : precedes job.id x.id = true
    · rw [if_pos hp] at h
      rcases List.mem_cons.mp h with h1 | h1
      · exact Or.inl h1
      · exact Or.inr h1
    · rw [if_neg hp] at h
      rcases List.mem_cons.mp h with h1 | h1
      · exact Or.inr (h1 ▸ List.mem_cons_self x rest)
      · rcases ih h1 with h2 | h2
        · exact Or.inl h2
        · exact Or.inr (List.mem_cons_of_mem x h2)

theorem Store.set_allAt (db : Store) (job : Job) :
    (db.set job).AllAt job.id (fun e => e = job) := by
  unfold Store.set
  cases hl : db.lookup job.id with
  | some old =>
    simp only [Option.isSome_some, if_true]
    have h0 : db.AllAt job.id (fun _ => True) := fun _ _ _ => trivial
    exact h0.update (fun _ _ _ => rfl)
  | none =>
    simp only [Option.isSome_none, Bool.false_eq_true, if_false]
    have hnot : ∀ e ∈ db, e.id ≠ job.id := by
      intro e he hid
      have := Store.lookup_isSome_of_mem he
      rw [hid, hl] at this
      cases this
    by_cases hp : job.id = "__proto__"
    · rw [if_pos hp]
      exact fun e he hid => absurd hid (hnot e he)
    · rw [if_neg hp]
      intro e he hid
      rcases Store.mem_insertNew he with h1 | h1
      · exact h1
      · exact absurd hid (hnot e h1)

/-- C9 (retry ceiling): a job is enqueued with `max_retries = R`, `R >= 1`; then `k >= 1`
rounds run, in each of which `getNextJob` claims that job and `markFailed` reports its
failure, `requeueFailed` being called between rounds.  Right after the `k`-th failure the
store files the job with `attempts = k`, in state `failed` when `k < R` and `dead`
otherwise (so after the `R`-th failure it is `dead` with `attempts = R`). -/
theorem retry_ceiling (cfg : Config) (env : EnqueueEnv) (db0 : Store) (jobData : JobData)
    (R : Nat) (rounds : List Round) (db' : Store)
    (hR : 1 ≤ R) (hmax : jobData.max_retries = some R) (hk : 1 ≤ rounds.length)
    (hrun : afterFailures (enqueue cfg env db0 jobData).1.id rounds
      (enqueue cfg env db0 jobData).2 = some db') :
    ∃ j, db'.lookup (enqueue cfg env db0 jobData).1.id = some j ∧
      j.attempts = rounds.length ∧
      j.state = if rounds.length < R then JobState.failed else JobState.dead := by
  have hinv : (enqueue cfg env db0 jobData).2.AllAt (enqueue cfg env db0 jobData).1.id
      (fun e => e.attempts = 0 ∧ e.max_retries = R) := by
    intro e he hid
    have heq : e = (enqueue cfg env db0 jobData).1 :=
      Store.set_allAt db0 (enqueue cfg env db0 jobData).1 e he hid
    rw [heq]
    refine ⟨rfl, ?_⟩
    show chooseMaxRetries cfg jobData.max_retries = R
    rw [hmax]
    unfold chooseMaxRetries
    have : ¬ R = 0 := by omega
    simp [this]
  have hne : rounds ≠ [] := by
    intro h
    rw [h] at hk
    simp at hk
  obtain ⟨j, hj, hatt, hst⟩ := afterFailures_spec _ R rounds _ db' 0 hinv hne hrun
  refine ⟨j, hj, by simpa using hatt, ?_⟩
  rw [hst]
  by_cases hlt : rounds.length < R
  · have : ¬ (0 + rounds.length ≥ R) := by omega
    simp [this, hlt]
  · have : 0 + rounds.length ≥ R := by omega
    simp [this, hlt]

theorem retry_ceiling_witness :
    afterFailures "job-r" [round1, round2] (enqueue Config.defaults sampleEnv [] retryData).2
        = some [retryDead] ∧
      ∃ j, Store.lookup [retryDead] (enqueue Config.defaults sampleEnv [] retryData).1.id
          = some j ∧
        j.attempts = [round1, round2].length ∧
        j.state = if [round1, round2].length < 2 then JobState.failed else JobState.dead :=
  ⟨by decide,
    retry_ceiling Config.defaults sampleEnv [] retryData 2 [round1, round2] [retryDead]
      (by decide) rfl (by decide) (by decide)⟩

/-- C10 (retry/backoff policy): when `markFailed` returns `attempts = a` for the claimed
job, the failure path of the worker schedules `requeueFailed` for that job exactly when
`a < job.max_retries`, with delay `backoff_base ^ a * 1000` milliseconds, and schedules
nothing otherwise; the store it leaves is the one left by `markFailed`.  The product is
taken in the range where the floating-point computation is exact. -/
theorem onFailure_backoff (cfg : Config) (now : Int) (db : Store) (job : Job) (a : Nat)
    (hfail : (markFailed now db job.id).1 = Except.ok (JsNumber.nat a))
    (_hexact : cfg.backoff_base ^ a * 1000 < 2 ^ 53) :
    (Worker.onFailure cfg now db job).1
        = Except.ok (if a < job.max_retries then
            some { delay := cfg.backoff_base ^ a * 1000, jobId := job.id }
          else none) ∧
      (Worker.onFailure cfg now db job).2 = (markFailed now db job.id).2 := by
  unfold Worker.onFailure
  rcases hm : markFailed now db job.id with ⟨res, db1⟩
  rw [hm] at hfail
  simp only at hfail
  subst hfail
  by_cases hlt : a < job.max_retries
  · simp [hlt]
  · simp [hlt]

theorem onFailure_backoff_witness :
    (markFailed 6000 [olderPending, processingJob] processingJob.id).1
        = Except.ok (JsNumber.nat 2) ∧
      Config.defaults.backoff_base ^ 2 * 1000 < 2 ^ 53 ∧
      (Worker.onFailure Config.defaults 6000 [olderPending, processingJob] processingJob).1
        = Except.ok (some { delay := 4000, jobId := "job-3" }) :=
  ⟨by decide, by decide,
    (onFailure_backoff Config.defaults 6000 [olderPending, processingJob] processingJob 2
      (by decide) (by decide)).1⟩

/-- C12 (DLQ retry): when the job filed under `jobId` is `dead`, `retryFromDLQ(jobId)`
leaves it `pending` with `attempts = 0` and no lease, its id, command, max_retries and
created_at unchanged, the store keeping the same ids in the same order and every other id
mapping to what it mapped to before; when the id is absent or the job is in any other
state, the store is unchanged. -/
theorem retryFromDLQ_spec (now : Int) (db : Store) (jobId : String) :
    (∀ job, db.lookup jobId = some job → job.state = JobState.dead →
      ∃ job', (retryFromDLQ now db jobId).lookup jobId = some job' ∧
        job'.state = JobState.pending ∧ job'.attempts = 0 ∧
        job'.locked_by = none ∧ job'.locked_at = none ∧
        job'.id = job.id ∧ job'.command = job.command ∧
        job'.max_retries = job.max_retries ∧ job'.created_at = job.created_at ∧
        (retryFromDLQ now db jobId).map Job.id = db.map Job.id ∧
        ∀ id, id ≠ jobId → (retryFromDLQ now db jobId).lookup id = db.lookup id) ∧
    (db.lookup jobId = none → retryFromDLQ now db jobId = db) ∧
    (∀ job, db.lookup jobId = some job → job.state ≠ JobState.dead →
      retryFromDLQ now db jobId = db) := by
  refine ⟨?_, ?_, ?_⟩
  · intro job hjob hdead
    have hrun : retryFromDLQ now db jobId = db.update jobId (retry now) := by
      unfold retryFromDLQ
      rw [hjob]
      simp [hdead]
    rw [hrun]
    refine ⟨retry now job, ?_, rfl, rfl, rfl, rfl, rfl, rfl, rfl, rfl, ?_, ?_⟩
    · rw [Store.lookup_update db jobId jobId (retry now) (fun _ he => he), hjob]
      simp
    · exact Store.map_id_update db jobId (retry now) (fun _ _ => rfl)
    · intro id hid
      rw [Store.lookup_update db jobId id (retry now) (fun _ he => he)]
      simp [hid]
  · intro hnone
    unfold retryFromDLQ
    rw [hnone]
  · intro job hjob hstate
    unfold retryFromDLQ
    rw [hjob]
    simp [hstate]

theorem retryFromDLQ_spec_witness :
    Store.lookup [olderPending, deadJob] "job-4" = some deadJob ∧
      deadJob.state = JobState.dead ∧ deadJob.attempts = 3 ∧
      retryFromDLQ 9900 [olderPending, deadJob] "job-4" = [olderPending, retry 9900 deadJob] ∧
      (retry 9900 deadJob).state = JobState.pending ∧ (retry 9900 deadJob).attempts = 0 ∧
      retryFromDLQ 9900 [olderPending, deadJob] "no-such-job" = [olderPending, deadJob] ∧
      retryFromDLQ 9900 [olderPending, deadJob] "job-1" = [olderPending, deadJob] :=
  ⟨by decide, by decide, by decide, by decide, by decide, by decide,
    (retryFromDLQ_spec 9900 [olderPending, deadJob] "no-such-job").2.1 (by decide),
    (retryFromDLQ_spec 9900 [olderPending, deadJob] "job-1").2.2 olderPending (by decide)
      (by decide)⟩

theorem requeueFailed_of_failed {now : Int} {db : Store} {jobId : String} {job : Job}
    (hjob : db.lookup jobId = some job) (hfailed : job.state = JobState.failed) :
    requeueFailed now db jobId = db.update jobId (requeue now) := by
  unfold requeueFailed
  rw [hjob]
  simp [hfailed]

theorem requeueFailed_of_not_failed {now : Int} {db : Store} {jobId : String} {job : Job}
    (hjob : db.lookup jobId = some job) (hstate : job.state ≠ JobState.failed) :
    requeueFailed now db jobId = db := by
  unfold requeueFailed
  rw [hjob]
  simp [hstate]

theorem requeueFailed_of_absent {now : Int} {db : Store} {jobId : String}
    (hnone : db.lookup jobId = none) : requeueFailed now db jobId = db := by
  unfold requeueFailed
  rw [hnone]

/-- C13 (idempotence of no-op transitions): `requeueFailed(jobId)` leaves the whole store
unchanged when the id is absent or the job's state is not `failed`; it moves a `failed` job
to `pending` with the same attempts; and calling it a second time (at any later clock
reading) gives the store the first call gave. -/
theorem requeueFailed_idempotent (now now' : Int) (db : Store) (jobId : String) :
    (db.lookup jobId = none → requeueFailed now db jobId = db) ∧
    (∀ job, db.lookup jobId = some job → job.state ≠ JobState.failed →
      requeueFailed now db jobId = db) ∧
    (∀ job, db.lookup jobId = some job → job.state = JobState.failed →
      ∃ job', (requeueFailed now db jobId).lookup jobId = some job' ∧
        job'.state = JobState.pending ∧ job'.attempts = job.attempts) ∧
    requeueFailed now' (requeueFailed now db jobId) jobId = requeueFailed now db jobId := by
  refine ⟨requeueFailed_of_absent, fun job => requeueFailed_of_not_failed, ?_, ?_⟩
  · intro job hjob hfailed
    rw [requeueFailed_of_failed hjob hfailed]
    refine ⟨requeue now job, ?_, rfl, rfl⟩
    rw [Store.lookup_update db jobId jobId (requeue now) (fun _ he => he), hjob]
    simp
  · cases hl : db.lookup jobId with
    | none =>
      rw [requeueFailed_of_absent hl]
      exact requeueFailed_of_absent hl
    | some job =>
      by_cases hfailed : job.state = JobState.failed
      · rw [requeueFailed_of_failed hl hfailed]
        have hl' : (db.update jobId (requeue now)).lookup jobId = some (requeue now job) := by
          rw [Store.lookup_update db jobId jobId (requeue now) (fun _ he => he), hl]
          simp
        exact requeueFailed_of_not_failed hl' (by simp [requeue])
      · rw [requeueFailed_of_not_failed hl hfailed]
        exact requeueFailed_of_not_failed hl hfailed

theorem requeueFailed_idempotent_witness :
    Store.lookup [olderPending, failedJob] "job-5" = some failedJob ∧
      requeueFailed 9600 [olderPending, failedJob] "job-5"
        = [olderPending, requeue 9600 failedJob] ∧
      requeueFailed 9600 [olderPending, failedJob] "job-1" = [olderPending, failedJob] ∧
      requeueFailed 9700 (requeueFailed 9600 [olderPending, failedJob] "job-5") "job-5"
        = requeueFailed 9600 [olderPending, failedJob] "job-5" :=
  ⟨by decide, by decide,
    (requeueFailed_idempotent 9600 9700 [olderPending, failedJob] "job-1").2.1 olderPending
      (by decide) (by decide),
    (requeueFailed_idempotent 9600 9700 [olderPending, failedJob] "job-5").2.2.2⟩

theorem getNextJob_of_some {now : Int} {db : Store} {w : String} {job : Job}
    (h : (getNextJob now db w).1 = some job) :
    ∃ job0 ∈ db, job = claim now w job0 ∧
      (getNextJob now db w).2 = db.update job0.id (fun _ => claim now w job0) ∧
      (getNextJob now db w).2.lookup job0.id = some (claim now w job0) := by
  unfold getNextJob at h ⊢
  cases hjobs : eligibleJobs now db with
  | nil => rw [hjobs] at h; cases h
  | cons job0 rest =>
    rw [hjobs] at h
    have hj : claim now w job0 = job := by simpa using h
    obtain ⟨hmem, -, -⟩ := eligibleJobs_head hjobs
    have hset : db.set (claim now w job0) = db.update job0.id (fun _ => claim now w job0) :=
      Store.set_of_mem hmem rfl
    obtain ⟨j0, hj0⟩ := Option.isSome_iff_exists.mp (Store.lookup_isSome_of_mem hmem)
    refine ⟨job0, hmem, hj.symm, hset, ?_⟩
    show (db.set (claim now w job0)).lookup job0.id = _
    rw [hset, Store.lookup_update db job0.id job0.id (fun _ => claim now w job0)
      (fun _ _ => rfl), hj0]
    simp

theorem Worker.onFailure_of_lookup {cfg : Config} {now : Int} {db : Store} {job j0 : Job}
    (h : db.lookup job.id = some j0) :
    Worker.onFailure cfg now db job =
      (Except.ok (if j0.attempts + 1 < job.max_retries then
          some { delay := cfg.backoff_base ^ (j0.attempts + 1) * 1000, jobId := job.id }
        else none),
        db.update job.id (fail now)) := by
  unfold Worker.onFailure
  rw [markFailed_of_lookup h]
  by_cases hlt : j0.attempts + 1 < job.max_retries
  · simp [hlt]
  · simp [hlt]

theorem Worker.failedIteration_spec {cfg : Config} {id : String} {r : Round}
    {db db2 : Store} {res : Except ErrorKind (Option Timer)} {a R : Nat}
    (hinv : db.AllAt id (fun e => e.attempts = a ∧ e.max_retries = R))
    (hrun : Worker.failedIteration cfg id r db = some (res, db2)) :
    res = Except.ok (if a + 1 < R then
        some { delay := cfg.backoff_base ^ (a + 1) * 1000, jobId := id } else none) ∧
      db2.AllAt id (fun e => e.attempts = a + 1 ∧ e.max_retries = R ∧
        e.state = if a + 1 ≥ R then JobState.dead else JobState.failed) ∧
      ∃ j, db2.lookup id = some j := by
  unfold Worker.failedIteration at hrun
  rcases hg : getNextJob r.claim_time db r.worker with ⟨res1, db1⟩
  rw [hg] at hrun
  cases res1 with
  | none => cases hrun
  | some job =>
    simp only at hrun
    by_cases hid : job.id = id
    · rw [if_pos hid] at hrun
      have h1 : (getNextJob r.claim_time db r.worker).1 = some job := by rw [hg]
      obtain ⟨job0, hmem, hjob, hdb1, hl1⟩ := getNextJob_of_some h1
      rw [hg] at hdb1 hl1
      simp only at hdb1 hl1
      have hid0 : job0.id = id := by rw [← hid, hjob]; rfl
      rw [hid0] at hdb1 hl1
      have hj := hinv job0 hmem hid0
      have hinv1 : db1.AllAt id (fun e => e.attempts = a ∧ e.max_retries = R) := by
        rw [hdb1]
        exact hinv.update (fun _ _ _ => hj)
      have hl1' : db1.lookup job.id = some (claim r.claim_time r.worker job0) := by
        rw [hid]; exact hl1
      rw [Worker.onFailure_of_lookup hl1'] at hrun
      have hpair := Option.some.inj hrun
      have hres := (Prod.mk.inj hpair).1
      have hdb2 := (Prod.mk.inj hpair).2
      have hmax : job.max_retries = R := by rw [hjob]; exact hj.2
      have hatt : (claim r.claim_time r.worker job0).attempts = a := hj.1
      refine ⟨?_, ?_, ?_⟩
      · rw [← hres, hmax, hatt, hid]
      · rw [← hdb2, hid]
        refine hinv1.update ?_
        intro e _ he
        refine ⟨by simp [fail, he.1], by simp [fail, he.2], ?_⟩
        simp [fail, he.1, he.2]
      · rw [← hdb2, hid, Store.lookup_update db1 id id (fail r.fail_time) (fun _ he => he),
          hl1]
        exact ⟨fail r.fail_time (claim r.claim_time r.worker job0), by simp⟩
    · rw [if_neg hid] at hrun
      cases hrun

theorem Timer.fire_spec {id : String} {t : Int} {db : Store} {a R b : Nat}
    (hinv : db.AllAt id (fun e => e.attempts = a ∧ e.max_retries = R ∧
        e.state = if a ≥ R then JobState.dead else JobState.failed)) :
    (Timer.fire t db (if a < R then some { delay := b ^ a * 1000, jobId := id } else none)).AllAt
      id (fun e => e.attempts = a ∧ e.max_retries = R) := by
  by_cases hlt : a < R
  · rw [if_pos hlt]
    exact requeueFailed_spec hinv
  · rw [if_neg hlt]
    exact fun e he hid => ⟨(hinv e he hid).1, (hinv e he hid).2.1⟩

theorem Worker.failureRun_spec (cfg : Config) (id : String) (R : Nat) :
    ∀ (rounds : List Round) (db : Store) (a : Nat) (log : List FailureRecord),
      db.AllAt id (fun e => e.attempts = a ∧ e.max_retries = R) →
      Worker.failureRun cfg id rounds db = some log →
      log = failureSchedule cfg.backoff_base R a rounds.length := by
  intro rounds
  induction rounds with
  | nil =>
    intro db a log _ hrun
    simp only [Worker.failureRun] at hrun
    rw [← Option.some.inj hrun]
    rfl
  | cons r rs ih =>
    intro db a log hinv hrun
    simp only [Worker.failureRun] at hrun
    cases hit : Worker.failedIteration cfg id r db with
    | none => rw [hit] at hrun; cases hrun
    | some p =>
      rcases p with ⟨res, db2⟩
      obtain ⟨hres, hall, j, hj⟩ := Worker.failedIteration_spec hinv hit
      rw [hit, hres] at hrun
      simp only [hj] at hrun
      have hP := hall.of_lookup hj
      have hinv2 := Timer.fire_spec (t := r.requeue_time) (b := cfg.backoff_base) hall
      cases hrest : Worker.failureRun cfg id rs (Timer.fire r.requeue_time db2
          (if a + 1 < R then
            some { delay := cfg.backoff_base ^ (a + 1) * 1000, jobId := id } else none)) with
      | none => rw [hrest] at hrun; cases hrun
      | some log' =>
        rw [hrest] at hrun
        have hlog' := ih _ (a + 1) log' hinv2 hrest
        rw [← Option.some.inj hrun, hlog', hP.1, hP.2.2]
        simp only [List.length_cons, failureSchedule]
        by_cases hlt : a + 1 < R
        · simp [hlt]
        · simp [hlt]

theorem enqueue_allAt (cfg : Config) (env : EnqueueEnv) (db : Store) (jobData : JobData) :
    (enqueue cfg env db jobData).2.AllAt (enqueue cfg env db jobData).1.id
      (fun e => e.attempts = 0 ∧
        e.max_retries = chooseMaxRetries cfg jobData.max_retries) := by
  intro e he hid
  have heq : e = (enqueue cfg env db jobData).1 :=
    Store.set_allAt db (enqueue cfg env db jobData).1 e he hid
  rw [heq]
  exact ⟨rfl, rfl⟩

/-- C11 as stated fails: with the default configuration (backoff base 2) and
`max_retries = 3`, three failed executions leave the records `(1, failed, 2000 ms)`,
`(2, failed, 4000 ms)`, `(3, dead, no timer)`: the third failure sets no delay, so the
delays are 2 and 4 seconds and there is no delay of 8. -/
theorem scenarioB_third_failure_sets_no_timer :
    Worker.failureRun Config.defaults "job-b" [round1, round2, round3]
        (enqueue Config.defaults sampleEnv [] scenarioB).2
      = some [{ attempts := 1, state := JobState.failed, delay := some 2000 },
              { attempts := 2, state := JobState.failed, delay := some 4000 },
              { attempts := 3, state := JobState.dead, delay := none }] := by
  decide

/-- C11 (amended): for a job enqueued with `max_retries = 3` under backoff base 2 whose
execution fails in three successive iterations, the attempts are 1, 2, 3; a requeue timer
of 2 seconds is set after the first failure and one of 4 seconds after the second; the
third failure leaves the job `dead` and sets no timer. -/
theorem scenarioB_records (cfg : Config) (env : EnqueueEnv) (db0 : Store)
    (jobData : JobData) (r1 r2 r3 : Round) (log : List FailureRecord)
    (hbase : cfg.backoff_base = 2) (hmax : jobData.max_retries = some 3)
    (hrun : Worker.failureRun cfg (enqueue cfg env db0 jobData).1.id [r1, r2, r3]
      (enqueue cfg env db0 jobData).2 = some log) :
    log = [{ attempts := 1, state := JobState.failed, delay := some 2000 },
           { attempts := 2, state := JobState.failed, delay := some 4000 },
           { attempts := 3, state := JobState.dead, delay := none }] := by
  have hinv := enqueue_allAt cfg env db0 jobData
  rw [hmax] at hinv
  have hlog := Worker.failureRun_spec cfg _ 3 [r1, r2, r3] _ 0 log hinv hrun
  rw [hlog, hbase]
  show failureSchedule 2 3 0 3 = _
  decide

theorem scenarioB_records_witness :
    ∃ log, Worker.failureRun Config.defaults
        (enqueue Config.defaults sampleEnv [processingJob]
          { id := none, command := some "exit 1", max_retries := some 3 }).1.id
        [round1, round2, round3]
        (enqueue Config.defaults sampleEnv [processingJob]
          { id := none, command := some "exit 1", max_retries := some 3 }).2 = some log ∧
      log.map FailureRecord.delay = [some 2000, some 4000, none] :=
  ⟨[{ attempts := 1, state := JobState.failed, delay := some 2000 },
    { attempts := 2, state := JobState.failed, delay := some 4000 },
    { attempts := 3, state := JobState.dead, delay := none }],
    by decide,
    congrArg (List.map FailureRecord.delay)
      (scenarioB_records Config.defaults sampleEnv [processingJob]
        { id := none, command := some "exit 1", max_retries := some 3 }
        round1 round2 round3 _ rfl rfl (by decide))⟩

theorem Store.mem_update {db : Store} {id : String} {f : Job → Job} {e' : Job}
    (h : e' ∈ db.update id f) : e' ∈ db ∨ ∃ e ∈ db, e' = f e := by
  unfold Store.update at h
  obtain ⟨e, he, rfl⟩ := List.mem_map.mp h
  by_cases h1 : e.id = id
  · rw [if_pos h1]
    exact Or.inr ⟨e, he, rfl⟩
  · rw [if_neg h1]
    exact Or.inl he

theorem Store.mem_set {db : Store} {job e' : Job} (h : e' ∈ db.set job) :
    e' ∈ db ∨ e' = job := by
  unfold Store.set at h
  by_cases h1 : (db.lookup job.id).isSome = true
  · rw [if_pos h1] at h
    rcases Store.mem_update h with h2 | ⟨_, _, h2⟩
    · exact Or.inl h2
    · exact Or.inr h2
  · rw [if_neg h1] at h
    by_cases h2 : job.id = "__proto__"
    · rw [if_pos h2] at h
      exact Or.inl h
    · rw [if_neg h2] at h
      rcases Store.mem_insertNew h with h3 | h3
      · exact Or.inr h3
      · exact Or.inl h3

theorem Store.lookup_set_of_ne (db : Store) (job : Job) {id : String} (hid : id ≠ job.id) :
    (db.set job).lookup id = db.lookup id := by
  unfold Store.set
  cases hl : db.lookup job.id with
  | some old =>
    simp only [Option.isSome_some, if_true]
    rw [Store.lookup_update db job.id id (fun _ => job) (fun _ _ => rfl)]
    simp [hid]
  | none =>
    simp only [Option.isSome_none, Bool.false_eq_true, if_false]
    by_cases h2 : job.id = "__proto__"
    · rw [if_pos h2]
    · rw [if_neg h2, Store.lookup_insertNew job db id hl]
      simp [hid]

theorem Store.lookup_set_of_present (db : Store) (job : Job) {old : Job}
    (hl : db.lookup job.id = some old) : (db.set job).lookup job.id = some job := by
  unfold Store.set
  rw [hl]
  simp only [Option.isSome_some, if_true]
  rw [Store.lookup_update db job.id job.id (fun _ => job) (fun _ _ => rfl), hl]
  simp

theorem Store.insertNew_perm (job : Job) (db : Store) :
    List.Perm (Store.insertNew job db) (job :: db) := by
  induction db with
  | nil => exact List.Perm.refl _
  | cons e rest ih =>
    unfold Store.insertNew
    by_cases hp : precedes job.id e.id = true
    · rw [if_pos hp]
    · rw [if_neg hp]
      exact (List.Perm.cons e ih).trans (List.Perm.swap job e rest)

theorem Store.lookup_eq_none_iff {db : Store} {id : String} :
    db.lookup id = none ↔ id ∉ db.map Job.id := by
  induction db with
  | nil => simp [Store.lookup]
  | cons e rest ih =>
    rw [Store.lookup_cons]
    by_cases h : e.id = id
    · simp [h]
    · have h' : ¬ id = e.id := fun h1 => h h1.symm
      simp [h, h', ih]

theorem Store.set_WF {db : Store} (job : Job) (hwf : db.WF) : (db.set job).WF := by
  unfold Store.set
  cases hl : db.lookup job.id with
  | some old =>
    simp only [Option.isSome_some, if_true]
    unfold Store.WF
    rw [Store.map_id_update db job.id (fun _ => job) (fun e he => he.symm)]
    exact hwf
  | none =>
    simp only [Option.isSome_none, Bool.false_eq_true, if_false]
    by_cases h2 : job.id = "__proto__"
    · rw [if_pos h2]
      exact hwf
    · rw [if_neg h2]
      unfold Store.WF
      have hperm : List.Perm ((Store.insertNew job db).map Job.id) ((job :: db).map Job.id) :=
        (Store.insertNew_perm job db).map Job.id
      rw [hperm.nodup_iff, List.map_cons, List.nodup_cons]
      exact ⟨Store.lookup_eq_none_iff.mp hl, hwf⟩

theorem Store.update_WF {db : Store} {id : String} {f : Job → Job}
    (hf : ∀ e, (f e).id = e.id) (hwf : db.WF) : (db.update id f).WF := by
  unfold Store.WF
  rw [Store.map_id_update db id f (fun e _ => hf e)]
  exact hwf

theorem getNextJob_WF {now : Int} {db : Store} {w : String} (hwf : db.WF) :
    (getNextJob now db w).2.WF := by
  unfold getNextJob
  cases eligibleJobs now db with
  | nil => exact hwf
  | cons job rest => exact Store.set_WF _ hwf

theorem Op.apply_WF (op : Op) {db : Store} (hwf : db.WF) : (op.apply db).WF := by
  cases op with
  | enqueue cfg env jobData => exact Store.set_WF _ hwf
  | getNextJob now w => exact getNextJob_WF hwf
  | markCompleted now jobId =>
    show (JobQueue.markCompleted now db jobId).WF
    unfold JobQueue.markCompleted
    cases db.lookup jobId with
    | none => exact hwf
    | some job => exact Store.update_WF (fun _ => rfl) hwf
  | markFailed now jobId =>
    show (JobQueue.markFailed now db jobId).2.WF
    unfold JobQueue.markFailed
    cases db.lookup jobId with
    | none =>
      by_cases hk : jobId ∈ objectPrototypeKeys
      · simp only [hk, if_true]; exact hwf
      · simp only [hk, if_false]; exact hwf
    | some job => exact Store.update_WF (fun _ => rfl) hwf
  | requeueFailed now jobId =>
    show (JobQueue.requeueFailed now db jobId).WF
    unfold JobQueue.requeueFailed
    cases db.lookup jobId with
    | none => exact hwf
    | some job =>
      by_cases hs : job.state = JobState.failed
      · simp only [hs, if_true]; exact Store.update_WF (fun _ => rfl) hwf
      · simp only [hs, if_false]; exact hwf
  | retryFromDLQ now jobId =>
    show (JobQueue.retryFromDLQ now db jobId).WF
    unfold JobQueue.retryFromDLQ
    cases db.lookup jobId with
    | none => exact hwf
    | some job =>
      by_cases hs : job.state = JobState.dead
      · simp only [hs, if_true]; exact Store.update_WF (fun _ => rfl) hwf
      · simp only [hs, if_false]; exact hwf

theorem Store.after_WF (ops : List Op) : ∀ {db : Store}, db.WF → (db.after ops).WF := by
  induction ops with
  | nil => intro db hwf; exact hwf
  | cons op rest ih =>
    intro db hwf
    exact ih (Op.apply_WF op hwf)

theorem reach_WF (ops : List Op) : (reach ops).WF :=
  Store.after_WF ops (by unfold Store.WF; exact List.nodup_nil)

theorem Op.apply_invariant (P : Job → Prop) (op : Op) (db : Store)
    (hdb : ∀ e ∈ db, P e)
    (henq : ∀ cfg env d, op = Op.enqueue cfg env d → P (JobQueue.enqueue cfg env db d).1)
    (hclaim : ∀ now w j, op = Op.getNextJob now w → P (claim now w j))
    (hcomplete : ∀ now j, P (complete now j))
    (hfail : ∀ now j, P (fail now j))
    (hrequeue : ∀ now j, P (requeue now j))
    (hretry : ∀ now j, P (retry now j)) :
    ∀ e ∈ op.apply db, P e := by
  intro e he
  cases op with
  | enqueue cfg env jobData =>
    rcases Store.mem_set he with h | h
    · exact hdb e h
    · rw [h]; exact henq cfg env jobData rfl
  | getNextJob now w =>
    have he' : e ∈ (JobQueue.getNextJob now db w).2 := he
    unfold JobQueue.getNextJob at he'
    cases hjobs : eligibleJobs now db with
    | nil => rw [hjobs] at he'; exact hdb e he'
    | cons job rest =>
      rw [hjobs] at he'
      rcases Store.mem_set he' with h | h
      · exact hdb e h
      · rw [h]; exact hclaim now w job rfl
  | markCompleted now jobId =>
    have he' : e ∈ JobQueue.markCompleted now db jobId := he
    unfold JobQueue.markCompleted at he'
    cases hl : db.lookup jobId with
    | none => rw [hl] at he'; exact hdb e he'
    | some job =>
      rw [hl] at he'
      rcases Store.mem_update he' with h | ⟨x, _, h⟩
      · exact hdb e h
      · rw [h]; exact hcomplete now x
  | markFailed now jobId =>
    have he' : e ∈ (JobQueue.markFailed now db jobId).2 := he
    unfold JobQueue.markFailed at he'
    cases hl : db.lookup jobId with
    | none =>
      rw [hl] at he'
      by_cases hk : jobId ∈ objectPrototypeKeys
      · simp only [hk, if_true] at he'; exact hdb e he'
      · simp only [hk, if_false] at he'; exact hdb e he'
    | some job =>
      rw [hl] at he'
      rcases Store.mem_update he' with h | ⟨x, _, h⟩
      · exact hdb e h
      · rw [h]; exact hfail now x
  | requeueFailed now jobId =>
    have he' : e ∈ JobQueue.requeueFailed now db jobId := he
    unfold JobQueue.requeueFailed at he'
    cases hl : db.lookup jobId with
    | none => rw [hl] at he'; exact hdb e he'
    | some job =>
      rw [hl] at he'
      by_cases hs : job.state = JobState.failed
      · simp only [hs, if_true] at he'
        rcases Store.mem_update he' with h | ⟨x, _, h⟩
        · exact hdb e h
        · rw [h]; exact hrequeue now x
      · simp only [hs, if_false] at he'; exact hdb e he'
  | retryFromDLQ now jobId =>
    have he' : e ∈ JobQueue.retryFromDLQ now db jobId := he
    unfold JobQueue.retryFromDLQ at he'
    cases hl : db.lookup jobId with
    | none => rw [hl] at he'; exact hdb e he'
    | some job =>
      rw [hl] at he'
      by_cases hs : job.state = JobState.dead
      · simp only [hs, if_true] at he'
        rcases Store.mem_update he' with h | ⟨x, _, h⟩
        · exact hdb e h
        · rw [h]; exact hretry now x
      · simp only [hs, if_false] at he'; exact hdb e he'

theorem Store.after_invariant (P : Job → Prop) (Q : Op → Prop)
    (hstep : ∀ op db, Q op → (∀ e ∈ db, P e) → ∀ e ∈ op.apply db, P e) :
    ∀ (ops : List Op) (db : Store), (∀ op ∈ ops, Q op) → (∀ e ∈ db, P e) →
      ∀ e ∈ db.after ops, P e := by
  intro ops
  induction ops with
  | nil => intro db _ hdb; exact hdb
  | cons op rest ih =>
    intro db hQ hdb
    exact ih (op.apply db) (fun o ho => hQ o (List.mem_cons_of_mem op ho))
      (hstep op db (hQ op (List.mem_cons_self op rest)) hdb)

/-- C15 (attempts/state invariant): in every store reached from the empty store by a
sequence of enqueue, getNextJob, markCompleted, markFailed, requeueFailed and retryFromDLQ
calls, a `failed` job has `attempts < max_retries` and a `dead` job has
`attempts >= max_retries`. -/
theorem reach_attempts_state (ops : List Op) (j : Job) (hj : j ∈ reach ops) :
    (j.state = JobState.failed → j.attempts < j.max_retries) ∧
      (j.state = JobState.dead → j.attempts ≥ j.max_retries) := by
  refine Store.after_invariant
    (fun e => (e.state = JobState.failed → e.attempts < e.max_retries) ∧
      (e.state = JobState.dead → e.attempts ≥ e.max_retries))
    (fun _ => True) ?_ ops [] (fun _ _ => trivial) (fun e he => by cases he) j hj
  intro op db _ hdb
  refine Op.apply_invariant _ op db hdb ?_ ?_ ?_ ?_ ?_ ?_
  · intro cfg env d _
    exact ⟨fun h => (by cases h), fun h => (by cases h)⟩
  · intro now w x _
    exact ⟨fun h => (by cases h), fun h => (by cases h)⟩
  · intro now x
    exact ⟨fun h => (by cases h), fun h => (by cases h)⟩
  · intro now x
    by_cases hge : x.attempts + 1 ≥ x.max_retries
    · refine ⟨fun h => ?_, fun _ => hge⟩
      simp [fail, hge] at h
    · refine ⟨fun _ => by simpa [fail] using hge, fun h => ?_⟩
      simp [fail, hge] at h
  · intro now x
    exact ⟨fun h => (by cases h), fun h => (by cases h)⟩
  · intro now x
    exact ⟨fun h => (by cases h), fun h => (by cases h)⟩

theorem reach_attempts_state_witness :
    fail 1700000001500 (claim 1700000001000 "worker-1"
        (enqueue Config.defaults sampleEnv []
          { id := some "job-a", command := some "exit 1", max_retries := some 2 }).1)
        ∈ reach sampleOps ∧
      (fail 1700000001500 (claim 1700000001000 "worker-1"
        (enqueue Config.defaults sampleEnv []
          { id := some "job-a", command := some "exit 1", max_retries := some 2 }).1)).state
        = JobState.failed ∧
      (1 : Nat) < 2 :=
  ⟨by decide, by decide,
    (reach_attempts_state sampleOps
      (fail 1700000001500 (claim 1700000001000 "worker-1"
        (enqueue Config.defaults sampleEnv []
          { id := some "job-a", command := some "exit 1", max_retries := some 2 }).1))
      (by decide)).1 (by decide)⟩

/-- C16 (lease-field invariant): in every store reached from the empty store by a sequence
of enqueue, getNextJob (with a non-empty worker id), markCompleted, markFailed,
requeueFailed and retryFromDLQ calls, a `processing` job has both `locked_by` (a non-empty
worker id) and `locked_at` set, and a job in any other state has both `null`. -/
theorem reach_lease_fields (ops : List Op) (hw : ∀ op ∈ ops, op.namesWorker) (j : Job)
    (hj : j ∈ reach ops) :
    (j.state = JobState.processing →
        ∃ w t, j.locked_by = some w ∧ w ≠ "" ∧ j.locked_at = some t) ∧
      (j.state ≠ JobState.processing → j.locked_by = none ∧ j.locked_at = none) := by
  refine Store.after_invariant
    (fun e => (e.state = JobState.processing →
        ∃ w t, e.locked_by = some w ∧ w ≠ "" ∧ e.locked_at = some t) ∧
      (e.state ≠ JobState.processing → e.locked_by = none ∧ e.locked_at = none))
    Op.namesWorker ?_ ops [] hw (fun e he => by cases he) j hj
  intro op db hop hdb
  refine Op.apply_invariant _ op db hdb ?_ ?_ ?_ ?_ ?_ ?_
  · intro cfg env d _
    exact ⟨fun h => (by cases h), fun _ => ⟨rfl, rfl⟩⟩
  · intro now w x hx
    rw [hx] at hop
    exact ⟨fun _ => ⟨w, now, rfl, hop, rfl⟩, fun h => absurd rfl h⟩
  · intro now x
    exact ⟨fun h => (by cases h), fun _ => ⟨rfl, rfl⟩⟩
  · intro now x
    refine ⟨fun h => ?_, fun _ => ⟨rfl, rfl⟩⟩
    by_cases hge : x.attempts + 1 ≥ x.max_retries
    · simp [fail, hge] at h
    · simp [fail, hge] at h
  · intro now x
    exact ⟨fun h => (by cases h), fun _ => ⟨rfl, rfl⟩⟩
  · intro now x
    exact ⟨fun h => (by cases h), fun _ => ⟨rfl, rfl⟩⟩

theorem reach_lease_fields_witness :
    (∀ op ∈ sampleOps.take 3, op.namesWorker) ∧
      claim 1700000001000 "worker-1"
        (enqueue Config.defaults sampleEnv []
          { id := some "job-a", command := some "exit 1", max_retries := some 2 }).1
        ∈ reach (sampleOps.take 3) ∧
      ∃ w t, (claim 1700000001000 "worker-1"
        (enqueue Config.defaults sampleEnv []
          { id := some "job-a", command := some "exit 1", max_retries := some 2 }).1).locked_by
          = some w ∧ w ≠ "" ∧
        (claim 1700000001000 "worker-1"
        (enqueue Config.defaults sampleEnv []
          { id := some "job-a", command := some "exit 1", max_retries := some 2 }).1).locked_at
          = some t :=
  ⟨by decide, by decide,
    (reach_lease_fields (sampleOps.take 3) (by decide)
      (claim 1700000001000 "worker-1"
        (enqueue Config.defaults sampleEnv []
          { id := some "job-a", command := some "exit 1", max_retries := some 2 }).1)
      (by decide)).1 rfl⟩

theorem Op.lookup_apply (op : Op) {db : Store} {id : String} {j : Job} (hwf : db.WF)
    (hj : db.lookup id = some j) :
    ∃ j', (op.apply db).lookup id = some j' ∧
      (j' = j ∨
        (∃ cfg env d, op = Op.enqueue cfg env d ∧ j' = (JobQueue.enqueue cfg env db d).1 ∧
          j'.id = id) ∨
        (∃ now w, op = Op.getNextJob now w ∧ j.state = JobState.pending ∧
          j' = claim now w j) ∨
        (∃ now, op = Op.markCompleted now id ∧ j' = complete now j) ∨
        (∃ now, op = Op.markFailed now id ∧ j' = fail now j) ∨
        (∃ now, op = Op.requeueFailed now id ∧ j.state = JobState.failed ∧
          j' = requeue now j) ∨
        (∃ now, op = Op.retryFromDLQ now id ∧ j.state = JobState.dead ∧
          j' = retry now j)) := by
  cases op with
  | enqueue cfg env d =>
    by_cases hid : id = (JobQueue.enqueue cfg env db d).1.id
    · refine ⟨(JobQueue.enqueue cfg env db d).1, ?_, Or.inr (Or.inl ⟨cfg, env, d, rfl, rfl,
        hid.symm⟩)⟩
      show (db.set (JobQueue.enqueue cfg env db d).1).lookup id = _
      rw [hid]
      exact Store.lookup_set_of_present db _ (hid ▸ hj)
    · refine ⟨j, ?_, Or.inl rfl⟩
      show (db.set (JobQueue.enqueue cfg env db d).1).lookup id = _
      rw [Store.lookup_set_of_ne db _ hid, hj]
  | getNextJob now w =>
    show ∃ j', (JobQueue.getNextJob now db w).2.lookup id = some j' ∧ _
    cases hres : (JobQueue.getNextJob now db w).1 with
    | none =>
      have hdb : (JobQueue.getNextJob now db w).2 = db := by
        unfold JobQueue.getNextJob at hres ⊢
        cases hjobs : eligibleJobs now db with
        | nil => rfl
        | cons job rest => rw [hjobs] at hres; cases hres
      rw [hdb]
      exact ⟨j, hj, Or.inl rfl⟩
    | some job =>
      obtain ⟨job0, hmem, hjob, hdb1, hl1⟩ := getNextJob_of_some hres
      have helig : job0.state = JobState.pending := by
        unfold JobQueue.getNextJob at hres
        cases hjobs : eligibleJobs now db with
        | nil => rw [hjobs] at hres; cases hres
        | cons x rest =>
          rw [hjobs] at hres
          have hx : claim now w x = job := by simpa using hres
          obtain ⟨_, hel, _⟩ := eligibleJobs_head hjobs
          have hx0 : x = job0 := by
            have h1 : claim now w x = claim now w job0 := by rw [hx, hjob]
            have hid : x.id = job0.id := by
              have h2 := congrArg Job.id h1
              exact h2
            have hlx := Store.lookup_of_mem_of_WF hwf (eligibleJobs_head hjobs).1
            have hl0 := Store.lookup_of_mem_of_WF hwf hmem
            rw [hid, hl0] at hlx
            exact (Option.some.inj hlx).symm
          rw [← hx0]
          unfold eligible at hel
          simp only [Bool.and_eq_true, decide_eq_true_eq] at hel
          exact hel.1
      by_cases hid : id = job0.id
      · have hj0 : j = job0 := by
          have hl0 := Store.lookup_of_mem_of_WF hwf hmem
          rw [← hid, hj] at hl0
          exact Option.some.inj hl0
        refine ⟨claim now w job0, ?_, Or.inr (Or.inr (Or.inl ⟨now, w, rfl, ?_, ?_⟩))⟩
        · rw [hid]; exact hl1
        · rw [hj0]; exact helig
        · rw [hj0]
      · refine ⟨j, ?_, Or.inl rfl⟩
        rw [hdb1, Store.lookup_update db job0.id id (fun _ => claim now w job0)
          (fun _ _ => rfl)]
        simp [hid, hj]
  | markCompleted now jobId =>
    show ∃ j', (JobQueue.markCompleted now db jobId).lookup id = some j' ∧ _
    unfold JobQueue.markCompleted
    cases hl : db.lookup jobId with
    | none => exact ⟨j, hj, Or.inl rfl⟩
    | some job =>
      simp only
      rw [Store.lookup_update db jobId id (complete now) (fun _ he => he)]
      by_cases hid : id = jobId
      · subst hid
        rw [hl] at hj
        have hjj : job = j := Option.some.inj hj
        subst hjj
        refine ⟨complete now job, by simp [hl], ?_⟩
        exact Or.inr (Or.inr (Or.inr (Or.inl ⟨now, rfl, rfl⟩)))
      · exact ⟨j, by simp [hid, hj], Or.inl rfl⟩
  | markFailed now jobId =>
    show ∃ j', (JobQueue.markFailed now db jobId).2.lookup id = some j' ∧ _
    unfold JobQueue.markFailed
    cases hl : db.lookup jobId with
    | none =>
      by_cases hk : jobId ∈ objectPrototypeKeys
      · simp only [hk, if_true]; exact ⟨j, hj, Or.inl rfl⟩
      · simp only [hk, if_false]; exact ⟨j, hj, Or.inl rfl⟩
    | some job =>
      simp only
      rw [Store.lookup_update db jobId id (fail now) (fun _ he => he)]
      by_cases hid : id = jobId
      · subst hid
        rw [hl] at hj
        have hjj : job = j := Option.some.inj hj
        subst hjj
        refine ⟨fail now job, by simp [hl], ?_⟩
        exact Or.inr (Or.inr (Or.inr (Or.inr (Or.inl ⟨now, rfl, rfl⟩))))
      · exact ⟨j, by simp [hid, hj], Or.inl rfl⟩
  | requeueFailed now jobId =>
    show ∃ j', (JobQueue.requeueFailed now db jobId).lookup id = some j' ∧ _
    unfold JobQueue.requeueFailed
    cases hl : db.lookup jobId with
    | none => exact ⟨j, hj, Or.inl rfl⟩
    | some job =>
      simp only
      by_cases hs : job.state = JobState.failed
      · rw [if_pos hs, Store.lookup_update db jobId id (requeue now) (fun _ he => he)]
        by_cases hid : id = jobId
        · subst hid
          rw [hl] at hj
          have hjj : job = j := Option.some.inj hj
          subst hjj
          refine ⟨requeue now job, by simp [hl], ?_⟩
          exact Or.inr (Or.inr (Or.inr (Or.inr (Or.inr (Or.inl ⟨now, rfl, hs, rfl⟩)))))
        · exact ⟨j, by simp [hid, hj], Or.inl rfl⟩
      · rw [if_neg hs]
        exact ⟨j, hj, Or.inl rfl⟩
  | retryFromDLQ now jobId =>
    show ∃ j', (JobQueue.retryFromDLQ now db jobId).lookup id = some j' ∧ _
    unfold JobQueue.retryFromDLQ
    cases hl : db.lookup jobId with
    | none => exact ⟨j, hj, Or.inl rfl⟩
    | some job =>
      simp only
      by_cases hs : job.state = JobState.dead
      · rw [if_pos hs, Store.lookup_update db jobId id (retry now) (fun _ he => he)]
        by_cases hid : id = jobId
        · subst hid
          rw [hl] at hj
          have hjj : job = j := Option.some.inj hj
          subst hjj
          refine ⟨retry now job, by simp [hl], ?_⟩
          exact Or.inr (Or.inr (Or.inr (Or.inr (Or.inr (Or.inr ⟨now, rfl, hs, rfl⟩)))))
        · exact ⟨j, by simp [hid, hj], Or.inl rfl⟩
      · rw [if_neg hs]
        exact ⟨j, hj, Or.inl rfl⟩

/-- C14 as stated fails: `markCompleted("job-1")` moves a `pending` job that was never
claimed to `completed`, and `markFailed("job-1")` then moves that `completed` job to
`failed`; neither pending->completed nor completed->failed is a transition of the state
machine. -/
theorem markCompleted_ignores_state :
    olderPending.state = JobState.pending ∧
      Store.lookup (Op.apply (Op.markCompleted 7000 "job-1") [olderPending]) "job-1"
        = some (complete 7000 olderPending) ∧
      (complete 7000 olderPending).state = JobState.completed ∧
      Store.lookup (Op.apply (Op.markFailed 8000 "job-1") [complete 7000 olderPending]) "job-1"
        = some (fail 8000 (complete 7000 olderPending)) ∧
      (fail 8000 (complete 7000 olderPending)).state = JobState.failed := by
  decide

/-- C14 (amended): when a call changes the state of the job filed under `id`, then
`getNextJob` took it from `pending` to `processing`, `requeueFailed` from `failed` to
`pending`, `retryFromDLQ` from `dead` to `pending`; `markCompleted` and `markFailed` were
called with that id and, whatever the state was, left it `completed`, respectively `dead`
when `attempts + 1 >= max_retries` and `failed` otherwise. -/
theorem transition_conformance (op : Op) (db : Store) (id : String) (j j' : Job)
    (hwf : db.WF) (hj : db.lookup id = some j)
    (hj' : (op.apply db).lookup id = some j') (hchg : j'.state ≠ j.state) :
    (∀ now w, op = Op.getNextJob now w →
      j.state = JobState.pending ∧ j'.state = JobState.processing) ∧
    (∀ now jobId, op = Op.requeueFailed now jobId →
      j.state = JobState.failed ∧ j'.state = JobState.pending) ∧
    (∀ now jobId, op = Op.retryFromDLQ now jobId →
      j.state = JobState.dead ∧ j'.state = JobState.pending) ∧
    (∀ now jobId, op = Op.markCompleted now jobId →
      jobId = id ∧ j'.state = JobState.completed) ∧
    (∀ now jobId, op = Op.markFailed now jobId →
      jobId = id ∧ j'.state = (if j.attempts + 1 ≥ j.max_retries then JobState.dead
        else JobState.failed)) := by
  obtain ⟨j'', hl, hcase⟩ := Op.lookup_apply op hwf hj
  rw [hj'] at hl
  have hjj : j' = j'' := Option.some.inj hl
  subst hjj
  rcases hcase with h | ⟨cfg, env, d, hop, -, -⟩ | ⟨now, w, hop, hs, hnew⟩ | ⟨now, hop, hnew⟩ |
    ⟨now, hop, hnew⟩ | ⟨now, hop, hs, hnew⟩ | ⟨now, hop, hs, hnew⟩
  · exact absurd (by rw [h]) hchg
  · subst hop
    exact ⟨fun _ _ h => (by cases h), fun _ _ h => (by cases h), fun _ _ h => (by cases h),
      fun _ _ h => (by cases h), fun _ _ h => (by cases h)⟩
  · subst hop
    refine ⟨fun _ _ _ => ⟨hs, by rw [hnew]; rfl⟩, fun _ _ h => (by cases h),
      fun _ _ h => (by cases h), fun _ _ h => (by cases h), fun _ _ h => (by cases h)⟩
  · subst hop
    refine ⟨fun _ _ h => (by cases h), fun _ _ h => (by cases h), fun _ _ h => (by cases h),
      fun _ _ h => ⟨?_, by rw [hnew]; rfl⟩, fun _ _ h => (by cases h)⟩
    cases h
    rfl
  · subst hop
    refine ⟨fun _ _ h => (by cases h), fun _ _ h => (by cases h), fun _ _ h => (by cases h),
      fun _ _ h => (by cases h), fun _ _ h => ⟨?_, by rw [hnew]; rfl⟩⟩
    cases h
    rfl
  · subst hop
    refine ⟨fun _ _ h => (by cases h), fun _ _ _ => ⟨hs, by rw [hnew]; rfl⟩,
      fun _ _ h => (by cases h), fun _ _ h => (by cases h), fun _ _ h => (by cases h)⟩
  · subst hop
    refine ⟨fun _ _ h => (by cases h), fun _ _ h => (by cases h),
      fun _ _ _ => ⟨hs, by rw [hnew]; rfl⟩, fun _ _ h => (by cases h),
      fun _ _ h => (by cases h)⟩

theorem transition_conformance_witness :
    Store.WF [newerPending, olderPending] ∧
      Store.lookup [newerPending, olderPending] "job-1" = some olderPending ∧
      Store.lookup (Op.apply (Op.getNextJob 5000 "worker-1") [newerPending, olderPending])
        "job-1" = some (claim 5000 "worker-1" olderPending) ∧
      olderPending.state = JobState.pending ∧
      (claim 5000 "worker-1" olderPending).state = JobState.processing :=
  ⟨by decide, by decide, by decide,
    (transition_conformance (Op.getNextJob 5000 "worker-1") [newerPending, olderPending]
      "job-1" olderPending (claim 5000 "worker-1" olderPending) (by decide) (by decide)
      (by decide) (by decide)).1 5000 "worker-1" rfl⟩

/-- C17 as stated fails: `enqueue` with the id of a job the store already holds replaces
that job; here the job filed under `job-5` has `attempts = 1` before the call and
`attempts = 0` after it. -/
theorem enqueue_existing_id_resets_attempts :
    (Store.lookup [failedJob] "job-5").map Job.attempts = some 1 ∧
      (Store.lookup (Op.apply (Op.enqueue Config.defaults sampleEnv
          { id := some "job-5", command := some "echo again", max_retries := none })
        [failedJob]) "job-5").map Job.attempts = some 0 := by
  decide

/-- C17 (amended): for a job filed under `id`, every call other than `retryFromDLQ` and
other than an `enqueue` that files its job under that same `id` leaves a job under `id`
whose attempts are at least the attempts before; an `enqueue` filing under `id` replaces
the job by one with `attempts = 0`. -/
theorem attempts_monotone (op : Op) (db : Store) (id : String) (j : Job)
    (hwf : db.WF) (hj : db.lookup id = some j) :
    ((∀ now jobId, op ≠ Op.retryFromDLQ now jobId) →
      (∀ cfg env d, op = Op.enqueue cfg env d → chooseId env d.id ≠ id) →
      ∃ j', (op.apply db).lookup id = some j' ∧ j.attempts ≤ j'.attempts) ∧
    (∀ cfg env d, op = Op.enqueue cfg env d → chooseId env d.id = id →
      ∃ j', (op.apply db).lookup id = some j' ∧ j'.attempts = 0) := by
  obtain ⟨j', hl, hcase⟩ := Op.lookup_apply op hwf hj
  constructor
  · intro hretry henq
    refine ⟨j', hl, ?_⟩
    rcases hcase with h | ⟨cfg, env, d, hop, hnew, hid⟩ | ⟨now, w, -, -, hnew⟩ |
      ⟨now, -, hnew⟩ | ⟨now, -, hnew⟩ | ⟨now, -, -, hnew⟩ | ⟨now, hop, -, -⟩
    · rw [h]
    · exact absurd (by rw [← hid, hnew]; rfl) (henq cfg env d hop)
    · rw [hnew]; exact Nat.le_refl _
    · rw [hnew]; exact Nat.le_refl _
    · rw [hnew]; exact Nat.le_succ _
    · rw [hnew]; exact Nat.le_refl _
    · exact absurd hop (hretry now id)
  · intro cfg env d hop hid
    refine ⟨j', hl, ?_⟩
    rcases hcase with h | ⟨cfg', env', d', hop', hnew, -⟩ | ⟨now, w, hop', -, -⟩ |
      ⟨now, hop', -⟩ | ⟨now, hop', -⟩ | ⟨now, hop', -, -⟩ | ⟨now, hop', -, -⟩
    · subst hop
      have hl' : (db.set (JobQueue.enqueue cfg env db d).1).lookup id = some j' := hl
      have hid' : (JobQueue.enqueue cfg env db d).1.id = id := hid
      rw [← hid', Store.lookup_set_of_present db _ (hid'.symm ▸ hj)] at hl'
      rw [← Option.some.inj hl']
      rfl
    · rw [hnew]; rfl
    · rw [hop] at hop'; cases hop'
    · rw [hop] at hop'; cases hop'
    · rw [hop] at hop'; cases hop'
    · rw [hop] at hop'; cases hop'
    · rw [hop] at hop'; cases hop'

theorem attempts_monotone_witness :
    Store.WF [olderPending, processingJob] ∧
      Store.lookup [olderPending, processingJob] "job-3" = some processingJob ∧
      (∃ j', Store.lookup (Op.apply (Op.markFailed 6000 "job-3")
          [olderPending, processingJob]) "job-3" = some j' ∧
        processingJob.attempts ≤ j'.attempts) ∧
      (∃ j', Store.lookup (Op.apply (Op.enqueue Config.defaults sampleEnv
            { id := some "job-3", command := some "echo again", max_retries := none })
          [olderPending, processingJob]) "job-3" = some j' ∧ j'.attempts = 0) :=
  ⟨by decide, by decide,
    (attempts_monotone (Op.markFailed 6000 "job-3") [olderPending, processingJob] "job-3"
      processingJob (by decide) (by decide)).1 (fun _ _ h => (by cases h))
      (fun _ _ _ h => (by cases h)),
    (attempts_monotone (Op.enqueue Config.defaults sampleEnv
        { id := some "job-3", command := some "echo again", max_retries := none })
      [olderPending, processingJob] "job-3" processingJob (by decide) (by decide)).2
      Config.defaults sampleEnv
      { id := some "job-3", command := some "echo again", max_retries := none } rfl
      (by decide)⟩

theorem Stats.get_count (result : Stats) (s t : JobState) :
    (result.count s).get t = result.get t + if s = t then 1 else 0 := by
  cases s <;> cases t <;> simp [Stats.count, Stats.get]

theorem getStats_foldl (db : Store) (init : Stats) (t : JobState) :
    (db.foldl (fun result job => result.count job.state) init).get t
      = init.get t + db.countP (fun job => decide (job.state = t)) := by
  induction db generalizing init with
  | nil => simp
  | cons e rest ih =>
    rw [List.foldl_cons, ih, Stats.get_count, List.countP_cons]
    by_cases h : e.state = t
    · simp [h]; omega
    · simp [h]

theorem countP_states_sum (db : Store) :
    db.countP (fun job => decide (job.state = JobState.pending))
      + db.countP (fun job => decide (job.state = JobState.processing))
      + db.countP (fun job => decide (job.state = JobState.completed))
      + db.countP (fun job => decide (job.state = JobState.failed))
      + db.countP (fun job => decide (job.state = JobState.dead)) = db.length := by
  induction db with
  | nil => simp
  | cons e rest ih =>
    simp only [List.countP_cons, List.length_cons]
    cases hs : e.state <;> simp <;> omega

/-- C18 (stats counts): for every store and each of the five states, `getStats` returns
the number of jobs of the store in that state, so the five counts add up to the number of
jobs; and enqueueing a job under a fresh id into the empty store gives `pending = 1` and
every other count `0`. -/
theorem getStats_counts (db : Store) (cfg : Config) (env : EnqueueEnv) (jobData : JobData) :
    (∀ state, (getStats db).get state
        = db.countP (fun job => decide (job.state = state))) ∧
      (getStats db).pending + (getStats db).processing + (getStats db).completed
        + (getStats db).failed + (getStats db).dead = db.length ∧
      (Store.fresh [] (enqueue cfg env [] jobData).1.id →
        getStats (enqueue cfg env [] jobData).2
          = { pending := 1, processing := 0, completed := 0, failed := 0, dead := 0 }) := by
  have hget : ∀ state, (getStats db).get state
      = db.countP (fun job => decide (job.state = state)) := by
    intro state
    unfold getStats
    rw [getStats_foldl]
    cases state <;> simp [Stats.get]
  refine ⟨hget, ?_, ?_⟩
  · have h1 := hget JobState.pending
    have h2 := hget JobState.processing
    have h3 := hget JobState.completed
    have h4 := hget JobState.failed
    have h5 := hget JobState.dead
    simp only [Stats.get] at h1 h2 h3 h4 h5
    rw [h1, h2, h3, h4, h5]
    exact countP_states_sum db
  · intro hfresh
    have hne : (enqueue cfg env [] jobData).1.id ≠ "__proto__" := by
      intro h
      apply hfresh.2
      rw [h]
      decide
    have hstore : (enqueue cfg env [] jobData).2 = [(enqueue cfg env [] jobData).1] := by
      show Store.set [] (enqueue cfg env [] jobData).1 = _
      unfold Store.set
      simp [Store.lookup, hne, Store.insertNew]
    rw [hstore]
    rfl

theorem getStats_counts_witness :
    Store.fresh [] (enqueue Config.defaults sampleEnv [] testJob1).1.id ∧
      getStats [olderPending, processingJob, deadJob, newerPending]
        = { pending := 2, processing := 1, completed := 0, failed := 0, dead := 1 } ∧
      getStats (enqueue Config.defaults sampleEnv [] testJob1).2
        = { pending := 1, processing := 0, completed := 0, failed := 0, dead := 0 } :=
  ⟨by decide, by decide,
    (getStats_counts [] Config.defaults sampleEnv testJob1).2.2 (by decide)⟩

theorem Store.mem_set_self (db : Store) (job : Job) (hid : job.id ≠ "__proto__") :
    job ∈ db.set job := by
  have h := Store.lookup_set db job job.id hid
  rw [if_pos rfl] at h
  exact Store.lookup_mem h

/-- C19 (list filter and order): `listJobs(s)` is a rearrangement of the jobs of the store
whose state is `s` (of all jobs of the store when no filter is given), so it holds exactly
those jobs, each as often as the store does; it is ordered by `created_at` descending; and
a job just enqueued under the id `X` is among `listJobs('pending')`. -/
theorem listJobs_spec (db : Store) (cfg : Config) (env : EnqueueEnv) (jobData : JobData)
    (X : String) :
    (∀ s, List.Perm (listJobs db (some s))
        (db.filter (fun job => decide (job.state = s)))) ∧
      List.Perm (listJobs db none) db ∧
      (∀ state, List.Pairwise (fun a b => b.created_at ≤ a.created_at)
        (listJobs db state)) ∧
      (jobData.id = some X → X ≠ "" → X ≠ "__proto__" →
        (enqueue cfg env db jobData).1.id = X ∧
        (enqueue cfg env db jobData).1 ∈
          listJobs (enqueue cfg env db jobData).2 (some JobState.pending)) := by
  refine ⟨fun s => List.perm_insertionSort _ _, List.perm_insertionSort _ _, ?_, ?_⟩
  · intro state
    cases state with
    | none => exact List.sorted_insertionSort newerOrEqual db
    | some s => exact List.sorted_insertionSort newerOrEqual _
  · intro hX hne hproto
    have hid : (enqueue cfg env db jobData).1.id = X := by
      show chooseId env jobData.id = X
      rw [hX]
      simp [chooseId, hne]
    refine ⟨hid, ?_⟩
    have hmem : (enqueue cfg env db jobData).1 ∈ (enqueue cfg env db jobData).2 :=
      Store.mem_set_self db (enqueue cfg env db jobData).1 (hid.symm ▸ hproto)
    have hperm := List.perm_insertionSort newerOrEqual
      ((enqueue cfg env db jobData).2.filter
        (fun job => decide (job.state = JobState.pending)))
    exact hperm.symm.subset (List.mem_filter.mpr ⟨hmem, by simp [enqueue]⟩)

theorem listJobs_spec_witness :
    testJob1.id = some "test-job-1" ∧
      listJobs [olderPending, processingJob, newerPending] (some JobState.pending)
        = [newerPending, olderPending] ∧
      listJobs [olderPending, processingJob, newerPending] none
        = [processingJob, newerPending, olderPending] ∧
      (enqueue Config.defaults sampleEnv [olderPending] testJob1).1 ∈
        listJobs (enqueue Config.defaults sampleEnv [olderPending] testJob1).2
          (some JobState.pending) :=
  ⟨rfl, by decide, by decide,
    ((listJobs_spec [olderPending] Config.defaults sampleEnv testJob1 "test-job-1").2.2.2 rfl
      (by decide) (by decide)).2⟩

/-- C20 as stated fails: an input that supplies the empty string as id and `0` as
max_retries gets a generated id and the configured default of 3. -/
theorem enqueue_falsy_id_and_max_retries_replaced :
    (enqueue Config.defaults sampleEnv []
        { id := some "", command := some "echo hi", max_retries := some 0 }).1.id
        = "job-1700000000000-k3x9q2m1z" ∧
      (enqueue Config.defaults sampleEnv []
        { id := some "", command := some "echo hi", max_retries := some 0 }).1.max_retries
        = 3 := by
  decide

/-- C20 (amended): for an input that supplies a non-empty id `X` and a max_retries
`m >= 1`, the job returned by `enqueue` has the id `X` and `max_retries = m` whatever the
configuration, and the store files that job under `X` (for `X` other than `__proto__`);
an empty id is replaced by a generated one and `max_retries = 0` by the configured
default. -/
theorem enqueue_honours_id_and_max_retries (cfg : Config) (env : EnqueueEnv) (db : Store)
    (X : String) (cmd : Option String) (m : Nat) (hX : X ≠ "") (hm : 1 ≤ m) :
    (enqueue cfg env db { id := some X, command := cmd, max_retries := some m }).1.id = X ∧
      (enqueue cfg env db { id := some X, command := cmd, max_retries := some m }).1.max_retries
        = m ∧
      (X ≠ "__proto__" →
        (enqueue cfg env db { id := some X, command := cmd, max_retries := some m }).2.lookup X
          = some (enqueue cfg env db
              { id := some X, command := cmd, max_retries := some m }).1) ∧
      (enqueue cfg env db { id := some "", command := cmd, max_retries := some 0 }).1.id
        = generateId env ∧
      (enqueue cfg env db { id := some "", command := cmd, max_retries := some 0 }).1.max_retries
        = cfg.max_retries := by
  have hid : (enqueue cfg env db
      { id := some X, command := cmd, max_retries := some m }).1.id = X := by
    show chooseId env (some X) = X
    simp [chooseId, hX]
  have hmax : (enqueue cfg env db
      { id := some X, command := cmd, max_retries := some m }).1.max_retries = m := by
    show chooseMaxRetries cfg (some m) = m
    have : ¬ m = 0 := by omega
    simp [chooseMaxRetries, this]
  refine ⟨hid, hmax, ?_, rfl, rfl⟩
  intro hproto
  have h := Store.lookup_set db (enqueue cfg env db
    { id := some X, command := cmd, max_retries := some m }).1 X (hid.symm ▸ hproto)
  rw [if_pos hid.symm] at h
  exact h

theorem enqueue_honours_id_and_max_retries_witness :
    (enqueue { max_retries := 5, backoff_base := 2 } sampleEnv [olderPending] failJobData).1.id
        = "fail-job" ∧
      (enqueue { max_retries := 5, backoff_base := 2 } sampleEnv [olderPending]
        failJobData).1.max_retries = 2 :=
  ⟨(enqueue_honours_id_and_max_retries { max_retries := 5, backoff_base := 2 } sampleEnv
      [olderPending] "fail-job" (some "invalid-command-xyz") 2 (by decide) (by decide)).1,
    (enqueue_honours_id_and_max_retries { max_retries := 5, backoff_base := 2 } sampleEnv
      [olderPending] "fail-job" (some "invalid-command-xyz") 2 (by decide) (by decide)).2.1⟩

/-- C3 (FIFO claim order), the code at the failing input: the store is the one reached by
enqueueing `job-a`, then `job-b`, and `worker-1` claiming `job-a` at `T = 1000000`.  Six
minutes later both jobs are eligible in the specification's sense (`job-a` is `processing`
with an expired lease) and `job-a` is the older one, yet `getNextJob` returns `job-b`. -/
theorem getNextJob_skips_older_expired_lease :
    reach leaseOps = [staleJob, laterPending] ∧
      specEligible (1000000 + 6 * 60 * 1000) staleJob = true ∧
      specEligible (1000000 + 6 * 60 * 1000) laterPending = true ∧
      staleJob.created_at < laterPending.created_at ∧
      (getNextJob (1000000 + 6 * 60 * 1000) [staleJob, laterPending] "worker-2").1
        = some (claim (1000000 + 6 * 60 * 1000) "worker-2" laterPending) := by
  decide

theorem eligibleJobs_of_filter_singleton {now : Int} {db : Store} {j : Job}
    (h : db.filter (eligible (now - 5 * 60 * 1000)) = [j]) : eligibleJobs now db = [j] := by
  unfold eligibleJobs
  rw [h]
  rfl

theorem eligibleJobs_of_filter_nil {now : Int} {db : Store}
    (h : db.filter (eligible (now - 5 * 60 * 1000)) = []) : eligibleJobs now db = [] := by
  unfold eligibleJobs
  rw [h]
  rfl

theorem getNextJob_of_no_eligible {now : Int} {db : Store} {w : String}
    (h : db.filter (eligible (now - 5 * 60 * 1000)) = []) :
    getNextJob now db w = (none, db) := by
  unfold getNextJob
  rw [eligibleJobs_of_filter_nil h]

theorem claimsInSequence_of_no_eligible :
    ∀ (attempts : List Attempt) (db : Store),
      (∀ a ∈ attempts, db.filter (eligible (a.now - 5 * 60 * 1000)) = []) →
      claimsInSequence attempts db = (List.replicate attempts.length none, db) := by
  intro attempts
  induction attempts with
  | nil => intro db _; rfl
  | cons a rest ih =>
    intro db h
    have ha := getNextJob_of_no_eligible (w := a.workerId) (h a (List.mem_cons_self a rest))
    have hrest := ih db (fun b hb => h b (List.mem_cons_of_mem a hb))
    simp only [claimsInSequence, ha, hrest, List.length_cons, List.replicate_succ]

theorem filter_eligible_after_claim {db : Store} {j : Job} {now t : Int} {w : String}
    (ht : db.filter (eligible (t - 5 * 60 * 1000)) = [j]) :
    (db.update j.id (fun _ => claim now w j)).filter (eligible (t - 5 * 60 * 1000)) = [] := by
  rw [List.filter_eq_nil_iff]
  intro e he
  rcases Store.mem_update he with h1 | ⟨_, _, h1⟩
  · intro hel
    have hin : e ∈ db.filter (eligible (t - 5 * 60 * 1000)) :=
      List.mem_filter.mpr ⟨h1, hel⟩
    rw [ht, List.mem_singleton] at hin
    have hne : e.id ≠ j.id := by
      intro hid
      unfold Store.update at he
      obtain ⟨x, hx, hxe⟩ := List.mem_map.mp he
      by_cases hxid : x.id = j.id
      · rw [if_pos hxid] at hxe
        rw [← hxe] at hel
        simp [eligible, claim] at hel
      · rw [if_neg hxid] at hxe
        exact hxid (hxe ▸ hid)
    exact hne (by rw [hin])
  · rw [h1]
    simp [eligible, claim]

/-- C2 as stated fails: the store holds exactly one eligible pending job, `job-1`; two
claim attempts whose reads both see that store each return `job-1`, one leased to
`worker-1` and one to `worker-2`, and the store written last records `worker-2` only. -/
theorem claimsOnSnapshot_both_obtain_job :
    List.filter (eligible (5000 - 5 * 60 * 1000)) [olderPending, processingJob]
        = [olderPending] ∧
      List.filter (eligible (5001 - 5 * 60 * 1000)) [olderPending, processingJob]
        = [olderPending] ∧
      claimsOnSnapshot [{ now := 5000, workerId := "worker-1" },
          { now := 5001, workerId := "worker-2" }] [olderPending, processingJob]
        = [some (claim 5000 "worker-1" olderPending),
           some (claim 5001 "worker-2" olderPending)] ∧
      (claim 5000 "worker-1" olderPending).id = (claim 5001 "worker-2" olderPending).id ∧
      writesOnSnapshot [{ now := 5000, workerId := "worker-1" },
          { now := 5001, workerId := "worker-2" }] [olderPending, processingJob]
        = [[claim 5000 "worker-1" olderPending, processingJob],
           [claim 5001 "worker-2" olderPending, processingJob]] := by
  decide

/-- C2 (amended): against a store in which, at the clock reading of every attempt, exactly
one job `j` passes the eligibility filter, claim attempts by any number of workers that
run one after another have exactly one success: the first attempt returns `j`, leased to
its worker, every later attempt returns `null`, and the store left is the one the first
attempt wrote. -/
theorem claimsInSequence_exactly_one (db : Store) (j : Job) (a : Attempt)
    (rest : List Attempt)
    (hone : ∀ b ∈ a :: rest, db.filter (eligible (b.now - 5 * 60 * 1000)) = [j]) :
    (claimsInSequence (a :: rest) db).1
        = some (claim a.now a.workerId j) :: List.replicate rest.length none ∧
      (claimsInSequence (a :: rest) db).2 = db.set (claim a.now a.workerId j) := by
  have ha := hone a (List.mem_cons_self a rest)
  have hmem : j ∈ db := by
    have : j ∈ db.filter (eligible (a.now - 5 * 60 * 1000)) := by
      rw [ha]; exact List.mem_singleton.mpr rfl
    exact (List.mem_filter.mp this).1
  have hfirst : getNextJob a.now db a.workerId
      = (some (claim a.now a.workerId j), db.set (claim a.now a.workerId j)) := by
    unfold getNextJob
    rw [eligibleJobs_of_filter_singleton ha]
  have hset : db.set (claim a.now a.workerId j)
      = db.update j.id (fun _ => claim a.now a.workerId j) := Store.set_of_mem hmem rfl
  have hrest := claimsInSequence_of_no_eligible rest (db.set (claim a.now a.workerId j))
    (fun b hb => by
      rw [hset]
      exact filter_eligible_after_claim (hone b (List.mem_cons_of_mem a hb)))
  simp [claimsInSequence, hfirst, hrest]

theorem claimsInSequence_exactly_one_witness :
    (∀ b ∈ [({ now := 5000, workerId := "worker-1" } : Attempt),
          { now := 5001, workerId := "worker-2" }, { now := 5002, workerId := "worker-3" }],
        List.filter (eligible (b.now - 5 * 60 * 1000)) [olderPending, processingJob]
          = [olderPending]) ∧
      (claimsInSequence [{ now := 5000, workerId := "worker-1" },
          { now := 5001, workerId := "worker-2" }, { now := 5002, workerId := "worker-3" }]
          [olderPending, processingJob]).1
        = [some (claim 5000 "worker-1" olderPending), none, none] :=
  ⟨by decide,
    (claimsInSequence_exactly_one [olderPending, processingJob] olderPending
      { now := 5000, workerId := "worker-1" }
      [{ now := 5001, workerId := "worker-2" }, { now := 5002, workerId := "worker-3" }]
      (by decide)).1⟩

end JobQueue
